import Mathlib

/-!
# SimpleVector over ArrayPtr

A shallow embedding of `simple-vector/array_ptr.h` and `simple-vector/simple_vector.h`.

Modelling conventions.

* `size_t` is a natural number below `SIZE_MOD = 2 ^ 64`; every arithmetic step the source
  performs on a `size_t` (`capacity_ * 2`, `++size_`, `--size_`) is reduced modulo `SIZE_MOD`.
* A heap array obtained from `new Type[n]` is a `RawArray`: the address returned by
  `operator new[]` together with the cells of the allocated extent.  The address is an input
  of every operation that allocates (the allocator decides it).  An `ArrayPtr` owns at most
  one such array, so the array travels with its owner.
* An iterator of a vector is the offset of the pointer from `begin()`.
* Every access to a cell is checked against the allocated extent; an access outside of it
  (or through the null pointer) is undefined behaviour and is reported as
  `Err.undefined_behaviour`.  A failed `assert` is `Err.assert_failed`, exceptions are the
  remaining constructors of `Err`.
* `std::move` of an element is modelled as a copy: the moved-from cell keeps its value, as it
  does for trivially copyable element types.
* A new-expression throws `std::bad_array_new_length` for a length it rejects (zero elements
  for the one initialiser of `{0}`, or more elements than the implementation admits for an
  array of the element type).  Exhaustion of memory (`std::bad_alloc`) is not modelled: an
  accepted new-expression is described for the case that `operator new[]` returns an address.
* `Insert` and `PushBack` take their argument by reference and read it only when they assign
  it to the cell; the argument is therefore a `ValueRef`, which may refer to a cell of the
  vector's own array.
* The copy constructor, the copy assignment and the constructor from a size and a value are
  ill-formed when instantiated (they assign a raw pointer to `items_`, apply `delete[]` to
  it, or pass it by value to `std::fill_n`, while `ArrayPtr` has only explicit constructors,
  no conversion to a pointer and a deleted copy constructor).  They have no behaviour and are
  not embedded.
-/

set_option autoImplicit false

/-- Number of values of `size_t`. -/
def SIZE_MOD : Nat := 2 ^ 64

/-- Ways in which an operation can fail to return normally. -/
inductive Err where
  /-- `std::out_of_range`, thrown by `At`. -/
  | out_of_range
  /-- `std::bad_array_new_length`, thrown by a new-expression that rejects the array length. -/
  | bad_array_new_length
  /-- A failed `assert`. -/
  | assert_failed
  /-- An access outside the allocated extent, or an invalid iterator range. -/
  | undefined_behaviour
  deriving DecidableEq

/-- The element type `Type` of the templates: `zero` is an element initialised from the literal
`0` (the first element of `new Type[n]{0}`), `dflt` is a value-initialised element (the
remaining elements of `new Type[n]{0}`), and `max_len` is the greatest number of elements
for which the implementation accepts `new Type[n]` (its limit on the size of an object
divided by `sizeof(Type)`); it is a `size_t`. -/
class ElemType (α : Type) where
  zero : α
  dflt : α
  max_len : Nat
  max_len_lt : max_len < SIZE_MOD

/-- Element type `int` on a 64-bit platform: four bytes, objects of at most `2 ^ 63 - 1`
bytes, hence at most `2 ^ 61 - 1` elements. -/
instance : ElemType Int := ⟨0, 0, 2 ^ 61 - 1, by decide⟩

/-- Element type `size_t` on a 64-bit platform: eight bytes, hence at most `2 ^ 60 - 1`
elements. -/
instance : ElemType Nat := ⟨0, 0, 2 ^ 60 - 1, by decide⟩

/-- A heap array: its address and the cells of its allocated extent. -/
structure RawArray (α : Type) where
  addr : Nat
  cells : List α
  deriving DecidableEq

/-- The new-expression `new Type[n]{0}` when `operator new[]` returns address `p`.
It throws `std::bad_array_new_length` ([expr.new]) when the braced list has more initialisers
than the array has elements (`n = 0`) and when `n` exceeds the number of elements the
implementation admits; otherwise the first element is initialised from `0` and the others are
value-initialised. -/
def new_array {α : Type} [ElemType α] (p n : Nat) : Except Err (RawArray α) :=
  if n = 0 ∨ ElemType.max_len α < n then .error .bad_array_new_length
  else .ok ⟨p, ElemType.zero :: List.replicate (n - 1) ElemType.dflt⟩

/-- Reading `ptr[i]` in an array with the given cells. -/
def load {α : Type} (cells : List α) (i : Nat) : Except Err α :=
  match cells[i]? with
  | some x => .ok x
  | none => .error .undefined_behaviour

/-- Writing `ptr[i] = x` in an array with the given cells. -/
def store {α : Type} (cells : List α) (i : Nat) (x : α) : Except Err (List α) :=
  if i < cells.length then .ok (cells.set i x) else .error .undefined_behaviour

/-- The argument `value` of `Insert` and `item` of `PushBack`.  The source takes it by
reference (`const Type&` or `Type&&`) and reads it at the assignment to the cell, after a
possible reallocation and after the shift of the tail. -/
inductive ValueRef (α : Type) where
  /-- A reference to an object outside the array of the vector, holding `x`. -/
  | external (x : α)
  /-- A reference to the cell `j` of the array the vector owns when the call starts, such as
  `v[j]`. -/
  | cell (j : Nat)
  deriving DecidableEq

/-- Reading the referenced object at the assignment `items_[insert_index] = value`.
`reallocated` tells whether the call has replaced and deleted the array the vector owned at
its start, `cells` are the cells of the current array.  A reference into the deleted array
dangles; a reference into the array that is still owned sees its present cell. -/
def ValueRef.read {α : Type} (value : ValueRef α) (reallocated : Bool) (cells : List α) :
    Except Err α :=
  match value with
  | .external x => .ok x
  | .cell j => if reallocated then .error .undefined_behaviour else load cells j

/-- Loop of `std::move(first, last, d_first)` when the three pointers point into one array:
`n` times `*d_first++ = std::move(*first++)`. -/
def std_move_loop {α : Type} : Nat → List α → Nat → Nat → Except Err (List α)
  | 0, cells, _, _ => .ok cells
  | n + 1, cells, first, d_first =>
    match load cells first with
    | .error e => .error e
    | .ok x =>
      match store cells d_first x with
      | .error e => .error e
      | .ok cells1 => std_move_loop n cells1 (first + 1) (d_first + 1)

/-- Algorithm `std::move(first, last, d_first)` inside one array; `last - first` elements. -/
def std_move {α : Type} (cells : List α) (first last d_first : Nat) : Except Err (List α) :=
  if last < first then .error .undefined_behaviour
  else std_move_loop (last - first) cells first d_first

/-- Loop of `std::move_backward(first, last, d_last)` inside one array:
`n` times `*(--d_last) = std::move(*(--last))`. -/
def std_move_backward_loop {α : Type} : Nat → List α → Nat → Nat → Except Err (List α)
  | 0, cells, _, _ => .ok cells
  | n + 1, cells, last, d_last =>
    if last = 0 ∨ d_last = 0 then .error .undefined_behaviour
    else
      match load cells (last - 1) with
      | .error e => .error e
      | .ok x =>
        match store cells (d_last - 1) x with
        | .error e => .error e
        | .ok cells1 => std_move_backward_loop n cells1 (last - 1) (d_last - 1)

/-- Algorithm `std::move_backward(first, last, d_last)` inside one array. -/
def std_move_backward {α : Type} (cells : List α) (first last d_last : Nat) :
    Except Err (List α) :=
  if last < first then .error .undefined_behaviour
  else std_move_backward_loop (last - first) cells last d_last

/-- Loop of `std::copy(first, last, d_first)` (and of `std::move` between two arrays) from the
array `src` into the distinct array `dst`: `n` times `*d_first++ = *first++`. -/
def std_copy_loop {α : Type} : Nat → List α → Nat → List α → Nat → Except Err (List α)
  | 0, _, _, dst, _ => .ok dst
  | n + 1, src, first, dst, d_first =>
    match load src first with
    | .error e => .error e
    | .ok x =>
      match store dst d_first x with
      | .error e => .error e
      | .ok dst1 => std_copy_loop n src (first + 1) dst1 (d_first + 1)

/-- Algorithm `std::copy(first, last, d_first)` from the array `src` into the array `dst`. -/
def std_copy {α : Type} (src : List α) (first last : Nat) (dst : List α) (d_first : Nat) :
    Except Err (List α) :=
  if last < first then .error .undefined_behaviour
  else std_copy_loop (last - first) src first dst d_first

/-- Algorithm `std::copy` from a caller-supplied sequence (an initializer list) into the array
`dst`, starting at `d_first`. -/
def std_copy_from {α : Type} : List α → List α → Nat → Except Err (List α)
  | [], dst, _ => .ok dst
  | x :: xs, dst, d_first =>
    match store dst d_first x with
    | .error e => .error e
    | .ok dst1 => std_copy_from xs dst1 (d_first + 1)

/-- Element loop of the four-iterator `std::equal`, after the two distances were found equal:
compares `n` pairs and stops at the first difference. -/
def std_equal_loop {α : Type} [DecidableEq α] :
    Nat → List α → Nat → List α → Nat → Except Err Bool
  | 0, _, _, _, _ => .ok true
  | n + 1, c1, first1, c2, first2 =>
    match load c1 first1 with
    | .error e => .error e
    | .ok x =>
      match load c2 first2 with
      | .error e => .error e
      | .ok y => if x = y then std_equal_loop n c1 (first1 + 1) c2 (first2 + 1) else .ok false

/-- Algorithm `std::equal(first1, last1, first2, last2)` on random-access iterators: ranges of
different length are unequal without looking at any element. -/
def std_equal {α : Type} [DecidableEq α] (c1 : List α) (first1 last1 : Nat) (c2 : List α)
    (first2 last2 : Nat) : Except Err Bool :=
  if last1 < first1 ∨ last2 < first2 then .error .undefined_behaviour
  else if last1 - first1 ≠ last2 - first2 then .ok false
  else std_equal_loop (last1 - first1) c1 first1 c2 first2

/-! ## ArrayPtr -/

/-- Class `ArrayPtr<Type>`: the field `raw_ptr_`, `none` being `nullptr`. -/
structure ArrayPtr (α : Type) where
  raw_ptr_ : Option (RawArray α)
  deriving DecidableEq

namespace ArrayPtr

variable {α : Type}

/-- Default constructor `ArrayPtr()`: `raw_ptr_ = nullptr`. -/
def ctor_default : ArrayPtr α := ⟨none⟩

/-- Constructor `ArrayPtr(size_t size)`:
`raw_ptr_ = size != 0 ? new Type[size]{0} : nullptr`. -/
def ctor_size [ElemType α] (p size : Nat) : Except Err (ArrayPtr α) :=
  if size ≠ 0 then
    match new_array p size with
    | .error e => .error e
    | .ok r => .ok ⟨some r⟩
  else .ok ⟨none⟩

/-- Constructor `ArrayPtr(Type* raw_ptr)`: adopts the array. -/
def ctor_raw (raw_ptr : Option (RawArray α)) : ArrayPtr α := ⟨raw_ptr⟩

/-- Move constructor `ArrayPtr(ArrayPtr&& other)`:
`raw_ptr_(std::exchange(other.raw_ptr_, nullptr))`.  Returns the new object and `other`. -/
def ctor_move (other : ArrayPtr α) : ArrayPtr α × ArrayPtr α :=
  (⟨other.raw_ptr_⟩, ⟨none⟩)

/-- Move assignment `operator=(ArrayPtr&& other)`:
`raw_ptr_ = std::exchange(other.raw_ptr_, nullptr)`; the array owned before is not freed
here.  Returns the assigned object and `other`. -/
def move_assign (_this other : ArrayPtr α) : ArrayPtr α × ArrayPtr α :=
  (⟨other.raw_ptr_⟩, ⟨none⟩)

/-- Member `Release()`: returns the raw pointer and nulls the field. -/
def Release (a : ArrayPtr α) : Option (RawArray α) × ArrayPtr α :=
  (a.raw_ptr_, ⟨none⟩)

/-- Member `Get()`: the value of the raw pointer, that is the address of the array. -/
def Get (a : ArrayPtr α) : Option Nat := a.raw_ptr_.map RawArray.addr

/-- Conversion `operator bool`: `raw_ptr_ != nullptr`. -/
def toBool (a : ArrayPtr α) : Bool := a.raw_ptr_.isSome

/-- Cells that can be accessed through the pointer: the extent of the owned array, nothing
for the null pointer. -/
def cells (a : ArrayPtr α) : List α :=
  match a.raw_ptr_ with
  | none => []
  | some r => r.cells

/-- The same pointer after the cells of its array were overwritten with `cs`. -/
def setCells (a : ArrayPtr α) (cs : List α) : ArrayPtr α :=
  match a.raw_ptr_ with
  | none => a
  | some r => ⟨some ⟨r.addr, cs⟩⟩

/-- Member `operator[](size_t index)`, read: `raw_ptr_[index]`, no bounds check in the source. -/
def subscript (a : ArrayPtr α) (index : Nat) : Except Err α := load a.cells index

/-- Member `operator[](size_t index)`, write through the returned reference. -/
def assign_at (a : ArrayPtr α) (index : Nat) (x : α) : Except Err (ArrayPtr α) :=
  match store a.cells index x with
  | .error e => .error e
  | .ok cs => .ok (a.setCells cs)

/-- Member `swap(ArrayPtr& other)`. -/
def swap (a other : ArrayPtr α) : ArrayPtr α × ArrayPtr α := (⟨other.raw_ptr_⟩, ⟨a.raw_ptr_⟩)

/-- Free function `operator==` on `ArrayPtr`: `lhs.Get() == rhs.Get()`. -/
def eq (lhs rhs : ArrayPtr α) : Bool := decide (lhs.Get = rhs.Get)

/-- Free function `operator!=` on `ArrayPtr`: `lhs.Get() != rhs.Get()`. -/
def ne (lhs rhs : ArrayPtr α) : Bool := decide (lhs.Get ≠ rhs.Get)

end ArrayPtr

/-- Algorithm `std::lexicographical_compare(first1, last1, first2, last2, comp)`, with `n1` and
`n2` the lengths of the two ranges: at each pair returns `true` when `comp(*first1, *first2)`,
`false` when `comp(*first2, *first1)`; when a range is exhausted returns
`first1 == last1 && first2 != last2`. -/
def std_lexicographical_compare_loop {α : Type} (comp : α → α → Bool) :
    Nat → Nat → List α → Nat → List α → Nat → Except Err Bool
  | 0, n2, _, _, _, _ => .ok (decide (n2 ≠ 0))
  | _ + 1, 0, _, _, _, _ => .ok false
  | n1 + 1, n2 + 1, c1, first1, c2, first2 =>
    match load c1 first1 with
    | .error e => .error e
    | .ok x =>
      match load c2 first2 with
      | .error e => .error e
      | .ok y =>
        if comp x y then .ok true
        else if comp y x then .ok false
        else std_lexicographical_compare_loop comp n1 n2 c1 (first1 + 1) c2 (first2 + 1)

/-- Algorithm `std::lexicographical_compare` on two ranges given by their offsets. -/
def std_lexicographical_compare {α : Type} (comp : α → α → Bool) (c1 : List α)
    (first1 last1 : Nat) (c2 : List α) (first2 last2 : Nat) : Except Err Bool :=
  if last1 < first1 ∨ last2 < first2 then .error .undefined_behaviour
  else std_lexicographical_compare_loop comp (last1 - first1) (last2 - first2) c1 first1 c2 first2

/-! ## SimpleVector -/

/-- Increment `++n` of a `size_t`. -/
def size_inc (n : Nat) : Nat := (n + 1) % SIZE_MOD

/-- Decrement `--n` of a `size_t`; wraps to `SIZE_MOD - 1` at zero. -/
def size_dec (n : Nat) : Nat := (n + (SIZE_MOD - 1)) % SIZE_MOD

/-- Product `a * b` of two `size_t`. -/
def size_mul (a b : Nat) : Nat := (a * b) % SIZE_MOD

/-- Class `SimpleVector<Type>`: the fields `items_`, `size_` and `capacity_`. -/
structure SimpleVector (α : Type) where
  items_ : ArrayPtr α
  size_ : Nat
  capacity_ : Nat
  deriving DecidableEq

namespace SimpleVector

variable {α : Type}

/-- Default constructor `SimpleVector()`: null `items_`, `size_ = 0`, `capacity_ = 0`. -/
def ctor_default : SimpleVector α := ⟨ArrayPtr.ctor_default, 0, 0⟩

/-- Member `GetSize()`. -/
def GetSize (v : SimpleVector α) : Nat := v.size_

/-- Member `GetCapacity()`. -/
def GetCapacity (v : SimpleVector α) : Nat := v.capacity_

/-- Member `IsEmpty()`: `size_ == 0`. -/
def IsEmpty (v : SimpleVector α) : Bool := decide (v.size_ = 0)

/-- Member `begin()`: offset of `items_.begin()`. -/
def begin (_v : SimpleVector α) : Nat := 0

/-- Member `end()`: `items_.begin() + size_`. -/
def end_ (v : SimpleVector α) : Nat := v.begin + v.size_

/-- Member `cbegin()`: offset of `items_.begin()`. -/
def cbegin (_v : SimpleVector α) : Nat := 0

/-- Member `cend()`: `items_.begin() + size_`. -/
def cend (v : SimpleVector α) : Nat := v.cbegin + v.size_

/-- Member `GetIndex(pos)`: `pos - begin()`. -/
def GetIndex (v : SimpleVector α) (pos : Nat) : Nat := pos - v.begin

/-- Member `operator[](size_t index)`: `assert(index < size_)`, then `items_[index]`. -/
def subscript (v : SimpleVector α) (index : Nat) : Except Err α :=
  if index < v.size_ then v.items_.subscript index else .error .assert_failed

/-- Member `At(size_t index)`: throws `std::out_of_range` if `index >= size_`, otherwise
`items_[index]`. -/
def At (v : SimpleVector α) (index : Nat) : Except Err α :=
  if index ≥ v.size_ then .error .out_of_range else v.items_.subscript index

/-- Member `Clear()`: `size_ = 0`. -/
def Clear (v : SimpleVector α) : SimpleVector α := { v with size_ := 0 }

/-- Member `Reserve(size_t new_capacity)`; `p` is the address `operator new[]` returns if the
call allocates.  When `new_capacity > capacity_`: builds `ArrayPtr<Type> new_array(new_capacity)`,
moves `[begin(), end())` into it if `items_.Get()` is not null, sets `capacity_`, destroys
the old `items_` and move-assigns `new_array` to it. -/
def Reserve [ElemType α] (v : SimpleVector α) (new_capacity p : Nat) :
    Except Err (SimpleVector α) :=
  if new_capacity > v.capacity_ then
    match ArrayPtr.ctor_size p new_capacity with
    | .error e => .error e
    | .ok (new_array : ArrayPtr α) =>
      match (if v.items_.Get.isSome then
          std_copy v.items_.cells v.begin v.end_ new_array.cells 0
        else .ok new_array.cells) with
      | .error e => .error e
      | .ok cs =>
        .ok ⟨(ArrayPtr.move_assign v.items_ (new_array.setCells cs)).1, v.size_, new_capacity⟩
  else .ok v

/-- Member `Resize(size_t new_size)`: `Reserve(new_size); size_ = new_size;`. -/
def Resize [ElemType α] (v : SimpleVector α) (new_size p : Nat) : Except Err (SimpleVector α) :=
  match v.Reserve new_size p with
  | .error e => .error e
  | .ok v1 => .ok { v1 with size_ := new_size }

/-- Member `Insert(ConstIterator pos, value)` (both overloads); `p` is the address
`operator new[]` returns if the call reallocates.  Returns the vector and the returned
iterator `begin() + insert_index`.  The referenced `value` is read after `Reserve` and
`std::move_backward`, at `items_[insert_index] = value`; `Reserve` has replaced and deleted
the old array exactly when it was called with a capacity above `capacity_`. -/
def Insert [ElemType α] (v : SimpleVector α) (pos : Nat) (value : ValueRef α) (p : Nat) :
    Except Err (SimpleVector α × Nat) :=
  if ¬ (pos ≥ v.begin ∧ pos ≤ v.end_) then .error .assert_failed
  else
    let insert_index := v.GetIndex pos
    let reallocated : Bool :=
      decide (v.size_ = v.capacity_ ∧ max (size_mul v.capacity_ 2) 1 > v.capacity_)
    match (if v.size_ = v.capacity_ then v.Reserve (max (size_mul v.capacity_ 2) 1) p
      else .ok v) with
    | .error e => .error e
    | .ok v1 =>
      match std_move_backward v1.items_.cells (v1.begin + insert_index) v1.end_
          (v1.end_ + 1) with
      | .error e => .error e
      | .ok cs =>
        match value.read reallocated cs with
        | .error e => .error e
        | .ok x =>
          match (v1.items_.setCells cs).assign_at insert_index x with
          | .error e => .error e
          | .ok items =>
            .ok (⟨items, size_inc v1.size_, v1.capacity_⟩, v1.begin + insert_index)

/-- Member `PushBack(item)` (both overloads): `Insert(cend(), item)`, the reference is
passed on. -/
def PushBack [ElemType α] (v : SimpleVector α) (item : ValueRef α) (p : Nat) :
    Except Err (SimpleVector α) :=
  match v.Insert v.cend item p with
  | .error e => .error e
  | .ok r => .ok r.1

/-- Member `PopBack()`: `if (size_) --size_;`. -/
def PopBack (v : SimpleVector α) : SimpleVector α :=
  if v.size_ ≠ 0 then { v with size_ := size_dec v.size_ } else v

/-- Member `Erase(ConstIterator pos)`:
`std::move(begin() + GetIndex(pos) + 1, end() + 1, begin() + GetIndex(pos)); --size_;`
and returns `pos`. -/
def Erase (v : SimpleVector α) (pos : Nat) : Except Err (SimpleVector α × Nat) :=
  if ¬ (pos ≥ v.begin ∧ pos ≤ v.end_) then .error .assert_failed
  else
    match std_move v.items_.cells (v.begin + v.GetIndex pos + 1) (v.end_ + 1)
        (v.begin + v.GetIndex pos) with
    | .error e => .error e
    | .ok cs => .ok (⟨v.items_.setCells cs, size_dec v.size_, v.capacity_⟩, pos)

/-- Member `swap(SimpleVector& other)`: swaps the three fields.  Returns this and `other`. -/
def swap (v other : SimpleVector α) : SimpleVector α × SimpleVector α :=
  (⟨(v.items_.swap other.items_).1, other.size_, other.capacity_⟩,
   ⟨(v.items_.swap other.items_).2, v.size_, v.capacity_⟩)

/-- Private member `Initialize(size_t size)`:
`items_ = ArrayPtr<Type>(size); size_ = size; capacity_ = size;`. -/
def Initialize [ElemType α] (v : SimpleVector α) (size p : Nat) : Except Err (SimpleVector α) :=
  match ArrayPtr.ctor_size p size with
  | .error e => .error e
  | .ok (tmp : ArrayPtr α) => .ok ⟨(ArrayPtr.move_assign v.items_ tmp).1, size, size⟩

/-- Private member `ChangeCapacity(size_t new_capacity)`. -/
def ChangeCapacity [ElemType α] (v : SimpleVector α) (new_capacity p q : Nat) :
    Except Err (SimpleVector α) :=
  let old_size := v.size_
  match v.Resize new_capacity p with
  | .error e => .error e
  | .ok v1 => v1.Resize old_size q

/-- Constructor `SimpleVector(const ReserveProxyObj& obj)`: `Reserve(obj.to_reserve)`. -/
def ctor_reserve [ElemType α] (to_reserve p : Nat) : Except Err (SimpleVector α) :=
  (ctor_default : SimpleVector α).Reserve to_reserve p

/-- Constructor `SimpleVector(size_t size)`: `Initialize(size)`. -/
def ctor_size [ElemType α] (size p : Nat) : Except Err (SimpleVector α) :=
  (ctor_default : SimpleVector α).Initialize size p

/-- Constructor `SimpleVector(std::initializer_list<Type> init)`: `Initialize(init.size())`,
then `std::copy(init.begin(), init.end(), begin())`. -/
def ctor_init_list [ElemType α] (init : List α) (p : Nat) : Except Err (SimpleVector α) :=
  match (ctor_default : SimpleVector α).Initialize init.length p with
  | .error e => .error e
  | .ok v =>
    match std_copy_from init v.items_.cells v.begin with
    | .error e => .error e
    | .ok cs => .ok { v with items_ := v.items_.setCells cs }

/-- Move constructor `SimpleVector(SimpleVector&& dimple)`: `items_(std::move(dimple.items_))`,
`size_(std::exchange(dimple.size_, 0))`, `capacity_(std::exchange(dimple.capacity_, 0))`.
Returns the new vector and `dimple`. -/
def ctor_move (dimple : SimpleVector α) : SimpleVector α × SimpleVector α :=
  (⟨(ArrayPtr.ctor_move dimple.items_).1, dimple.size_, dimple.capacity_⟩,
   ⟨(ArrayPtr.ctor_move dimple.items_).2, 0, 0⟩)

/-- Move assignment `operator=(SimpleVector&& dimple)`.  When `items_ != dimple.items_`:
`tmp_items` is move-constructed from `dimple.items_`, the old `items_` is destroyed,
`tmp_items` is move-assigned to `items_`, and `size_`, `capacity_` are copied from `dimple`.
Returns this and `dimple`. -/
def move_assign (v dimple : SimpleVector α) : SimpleVector α × SimpleVector α :=
  if ArrayPtr.ne v.items_ dimple.items_ then
    let tmp_items := (ArrayPtr.ctor_move dimple.items_).1
    let dimple_items := (ArrayPtr.ctor_move dimple.items_).2
    (⟨(ArrayPtr.move_assign v.items_ tmp_items).1, dimple.size_, dimple.capacity_⟩,
     ⟨dimple_items, dimple.size_, dimple.capacity_⟩)
  else (v, dimple)

/-- Free function `operator==`: `std::equal(lhs.begin(), lhs.end(), rhs.begin(), rhs.end())`. -/
def eq [DecidableEq α] (lhs rhs : SimpleVector α) : Except Err Bool :=
  std_equal lhs.items_.cells lhs.begin lhs.end_ rhs.items_.cells rhs.begin rhs.end_

/-- Free function `operator!=`: the negation of the same `std::equal` call. -/
def ne [DecidableEq α] (lhs rhs : SimpleVector α) : Except Err Bool :=
  match std_equal lhs.items_.cells lhs.begin lhs.end_ rhs.items_.cells rhs.begin rhs.end_ with
  | .error e => .error e
  | .ok b => .ok (!b)

/-- Free function `operator<`: `std::lexicographical_compare` with `std::less`. -/
def lt [LT α] [DecidableRel (fun (a b : α) => a < b)] (lhs rhs : SimpleVector α) :
    Except Err Bool :=
  std_lexicographical_compare (fun a b => decide (a < b)) lhs.items_.cells lhs.begin lhs.end_
    rhs.items_.cells rhs.begin rhs.end_

/-- Free function `operator<=`: `(lhs == rhs) || (lhs < rhs)`. -/
def le [DecidableEq α] [LT α] [DecidableRel (fun (a b : α) => a < b)]
    (lhs rhs : SimpleVector α) : Except Err Bool :=
  match eq lhs rhs with
  | .error e => .error e
  | .ok true => .ok true
  | .ok false => lt lhs rhs

/-- Free function `operator>`: `std::lexicographical_compare` with `std::greater`. -/
def gt [LT α] [DecidableRel (fun (a b : α) => a < b)] (lhs rhs : SimpleVector α) :
    Except Err Bool :=
  std_lexicographical_compare (fun a b => decide (b < a)) lhs.items_.cells lhs.begin lhs.end_
    rhs.items_.cells rhs.begin rhs.end_

/-- Free function `operator>=`: `(lhs == rhs) || (lhs > rhs)`. -/
def ge [DecidableEq α] [LT α] [DecidableRel (fun (a b : α) => a < b)]
    (lhs rhs : SimpleVector α) : Except Err Bool :=
  match eq lhs rhs with
  | .error e => .error e
  | .ok true => .ok true
  | .ok false => gt lhs rhs

/-- The allocated extent of `items_` has `capacity_` cells and `size_ ≤ capacity_`. -/
def WF (v : SimpleVector α) : Prop :=
  v.items_.cells.length = v.capacity_ ∧ v.size_ ≤ v.capacity_

instance (v : SimpleVector α) : Decidable v.WF := by
  unfold WF
  infer_instance

/-- The logical contents: the cells at the indices `[0, size_)`. -/
def contents (v : SimpleVector α) : List α := v.items_.cells.take v.size_

/-- A sequence of `PushBack` calls, one per entry of `calls`: the reference to the pushed
item and the address `operator new[]` returns if that call reallocates. -/
def PushBackAll [ElemType α] :
    SimpleVector α → List (ValueRef α × Nat) → Except Err (SimpleVector α)
  | v, [] => .ok v
  | v, c :: rest =>
    match v.PushBack c.1 c.2 with
    | .error e => .error e
    | .ok v1 => PushBackAll v1 rest

/-- The vector `{1, 2, 3}` as the initializer-list constructor builds it at address 100. -/
def vec123 : SimpleVector Int := ⟨⟨some ⟨100, [1, 2, 3]⟩⟩, 3, 3⟩

/-- The vector `{9}` as the initializer-list constructor builds it at address 200. -/
def vec9 : SimpleVector Int := ⟨⟨some ⟨200, [9]⟩⟩, 1, 1⟩

/-- The vector `{1, 2}` as the initializer-list constructor builds it at address 300. -/
def vec12 : SimpleVector Int := ⟨⟨some ⟨300, [1, 2]⟩⟩, 2, 2⟩

/-- The vector `{1, 2, 4}` as the initializer-list constructor builds it at address 400. -/
def vec124 : SimpleVector Int := ⟨⟨some ⟨400, [1, 2, 4]⟩⟩, 3, 3⟩

/-- A vector holding `1, 2, 3` in an array of five cells at address 600, as left by
`Reserve(5)` on `{1, 2, 3}`, `PushBack(7)`, `PushBack(8)` and two calls of `PopBack()`: the
cells beyond the size hold 7 and 8. -/
def vec123_cap5 : SimpleVector Int := ⟨⟨some ⟨600, [1, 2, 3, 7, 8]⟩⟩, 3, 5⟩

/-- Calls that push the values of `items` held outside the vector: every item with the
address `operator new[]` returns if its call reallocates. -/
def external_calls (items : List (α × Nat)) : List (ValueRef α × Nat) :=
  items.map (fun c => (ValueRef.external c.1, c.2))

/-- The vector `{10, 20, 30}` as the initializer-list constructor builds it at address 500. -/
def vec102030 : SimpleVector Int := ⟨⟨some ⟨500, [10, 20, 30]⟩⟩, 3, 3⟩

end SimpleVector

/-- Cell indices that the loop of `std::move` inside one array touches, in program order:
each of the `n` steps reads the cell `first` and writes the cell `d_first`. -/
def std_move_loop_indices : Nat → Nat → Nat → List Nat
  | 0, _, _ => []
  | n + 1, first, d_first => first :: d_first :: std_move_loop_indices n (first + 1) (d_first + 1)

/-- Cell indices that `Erase(pos)` touches in its call
`std::move(begin() + GetIndex(pos) + 1, end() + 1, begin() + GetIndex(pos))`. -/
def SimpleVector.Erase_indices {α : Type} (v : SimpleVector α) (pos : Nat) : List Nat :=
  std_move_loop_indices ((v.end_ + 1) - (v.begin + v.GetIndex pos + 1))
    (v.begin + v.GetIndex pos + 1) (v.begin + v.GetIndex pos)

/-- What `std::lexicographical_compare` with the comparator `comp` returns on two ranges
holding the elements `xs` and `ys`. -/
def lex_compare_lists {α : Type} (comp : α → α → Bool) : List α → List α → Bool
  | [], ys => decide (ys.length ≠ 0)
  | _ :: _, [] => false
  | x :: xs, y :: ys =>
    if comp x y then true
    else if comp y x then false
    else lex_compare_lists comp xs ys

/-- Lexicographic order in the words of the specification: `xs` is a strict prefix of `ys`, or
there is a first index `k`, below both lengths, at which the two differ, and there the element
of `xs` is less than the element of `ys`. -/
def LexLess {α : Type} [LT α] (xs ys : List α) : Prop :=
  (xs <+: ys ∧ xs.length < ys.length) ∨
    ∃ (k : Nat) (x y : α), xs[k]? = some x ∧ ys[k]? = some y ∧ x ≠ y ∧ x < y ∧
      ∀ j : Nat, j < k → xs[j]? = ys[j]?

/-! ## Specifications of the element loops -/

section loops

variable {α : Type}

theorem load_of_lt {cells : List α} {i : Nat} (h : i < cells.length) :
    load cells i = .ok (cells.get ⟨i, h⟩) := by
  simp [load, List.getElem?_eq_getElem h]

theorem load_of_le {cells : List α} {i : Nat} (h : cells.length ≤ i) :
    load cells i = .error .undefined_behaviour := by
  simp [load, List.getElem?_eq_none h]

theorem store_of_lt {cells : List α} {i : Nat} (x : α) (h : i < cells.length) :
    store cells i x = .ok (cells.set i x) := by
  simp [store, h]

/-- Shifting `n` cells one slot to the left, the way `Erase` calls `std::move`. -/
theorem std_move_loop_shift_left (n : Nat) :
    ∀ (cells : List α) (d : Nat), d + 1 + n ≤ cells.length →
      ∃ cs, std_move_loop n cells (d + 1) d = .ok cs ∧ cs.length = cells.length ∧
        ∀ k, cs[k]? = if d ≤ k ∧ k < d + n then cells[k + 1]? else cells[k]? := by
  induction n with
  | zero =>
    intro cells d _
    refine ⟨cells, rfl, rfl, ?_⟩
    intro k
    have : ¬ (d ≤ k ∧ k < d + 0) := by omega
    rw [if_neg this]
  | succ n ih =>
    intro cells d h
    have h1 : d + 1 < cells.length := by omega
    have h2 : d < cells.length := by omega
    obtain ⟨cs, hcs, hlen, hget⟩ := ih (cells.set d (cells.get ⟨d + 1, h1⟩)) (d + 1)
      (by simp; omega)
    refine ⟨cs, ?_, by simpa using hlen, ?_⟩
    · simp only [std_move_loop, load_of_lt h1, store_of_lt _ h2]
      exact hcs
    · intro k
      rw [hget k]
      by_cases hk : d + 1 ≤ k ∧ k < d + 1 + n
      · have hk2 : d ≤ k ∧ k < d + (n + 1) := by omega
        have hne : d ≠ k + 1 := by omega
        simp [hk, hk2, List.getElem?_set_ne hne]
      · by_cases hkd : k = d
        · subst hkd
          have hk2 : k ≤ k ∧ k < k + (n + 1) := by omega
          simp [hk, hk2, List.getElem?_set_self h2, List.getElem?_eq_getElem h1]
        · have hk2 : ¬ (d ≤ k ∧ k < d + (n + 1)) := by omega
          have hne : d ≠ k := fun h => hkd h.symm
          simp [hk, hk2, List.getElem?_set_ne hne]

/-- Shifting `n` cells one slot to the right, the way `Insert` calls `std::move_backward`. -/
theorem std_move_backward_loop_shift_right (n : Nat) :
    ∀ (cells : List α) (last : Nat), n ≤ last → last + 1 ≤ cells.length →
      ∃ cs, std_move_backward_loop n cells last (last + 1) = .ok cs ∧
        cs.length = cells.length ∧
        ∀ k, cs[k]? = if last - n < k ∧ k ≤ last then cells[k - 1]? else cells[k]? := by
  induction n with
  | zero =>
    intro cells last _ _
    refine ⟨cells, rfl, rfl, ?_⟩
    intro k
    have : ¬ (last - 0 < k ∧ k ≤ last) := by omega
    rw [if_neg this]
  | succ n ih =>
    intro cells last hn h
    have h1 : last - 1 < cells.length := by omega
    have h2 : last < cells.length := by omega
    have h0 : ¬ (last = 0 ∨ last + 1 = 0) := by omega
    obtain ⟨cs, hcs, hlen, hget⟩ := ih (cells.set last (cells.get ⟨last - 1, h1⟩)) (last - 1)
      (by omega) (by simp; omega)
    have hl : last - 1 + 1 = last := by omega
    rw [hl] at hcs
    refine ⟨cs, ?_, by simpa using hlen, ?_⟩
    · simp only [std_move_backward_loop, h0, if_false, Nat.add_sub_cancel, load_of_lt h1,
        store_of_lt _ h2]
      exact hcs
    · intro k
      rw [hget k]
      by_cases hk : last - 1 - n < k ∧ k ≤ last - 1
      · have hk2 : last - (n + 1) < k ∧ k ≤ last := by omega
        have hne : last ≠ k - 1 := by omega
        simp [hk, hk2, List.getElem?_set_ne hne]
      · by_cases hkd : k = last
        · subst hkd
          have hk2 : k - (n + 1) < k ∧ k ≤ k := by omega
          simp [hk, hk2, List.getElem?_set_self h2, List.getElem?_eq_getElem h1]
        · have hk2 : ¬ (last - (n + 1) < k ∧ k ≤ last) := by omega
          have hne : last ≠ k := fun h => hkd h.symm
          simp [hk, hk2, List.getElem?_set_ne hne]

/-- Copying `n` cells of `src` from offset `first` to the start region of `dst`. -/
theorem std_copy_loop_spec (n : Nat) :
    ∀ (src : List α) (first : Nat) (dst : List α) (d : Nat),
      first + n ≤ src.length → d + n ≤ dst.length →
      ∃ cs, std_copy_loop n src first dst d = .ok cs ∧ cs.length = dst.length ∧
        ∀ k, cs[k]? = if d ≤ k ∧ k < d + n then src[first + (k - d)]? else dst[k]? := by
  induction n with
  | zero =>
    intro src first dst d _ _
    refine ⟨dst, rfl, rfl, ?_⟩
    intro k
    have : ¬ (d ≤ k ∧ k < d + 0) := by omega
    rw [if_neg this]
  | succ n ih =>
    intro src first dst d hs hd
    have h1 : first < src.length := by omega
    have h2 : d < dst.length := by omega
    obtain ⟨cs, hcs, hlen, hget⟩ := ih src (first + 1) (dst.set d (src.get ⟨first, h1⟩)) (d + 1)
      (by omega) (by simp; omega)
    refine ⟨cs, ?_, by simpa using hlen, ?_⟩
    · simp only [std_copy_loop, load_of_lt h1, store_of_lt _ h2]
      exact hcs
    · intro k
      rw [hget k]
      by_cases hk : d + 1 ≤ k ∧ k < d + 1 + n
      · have hk2 : d ≤ k ∧ k < d + (n + 1) := by omega
        have he : first + 1 + (k - (d + 1)) = first + (k - d) := by omega
        simp [hk, hk2, he]
      · by_cases hkd : k = d
        · subst hkd
          have hk2 : k ≤ k ∧ k < k + (n + 1) := by omega
          simp [hk, hk2, List.getElem?_set_self h2, List.getElem?_eq_getElem h1]
        · have hk2 : ¬ (d ≤ k ∧ k < d + (n + 1)) := by omega
          have hne : d ≠ k := fun h => hkd h.symm
          simp [hk, hk2, List.getElem?_set_ne hne]

/-- Copying a caller-supplied sequence into `dst` from offset `d` on. -/
theorem std_copy_from_spec (xs : List α) :
    ∀ (dst : List α) (d : Nat), d + xs.length ≤ dst.length →
      ∃ cs, std_copy_from xs dst d = .ok cs ∧ cs.length = dst.length ∧
        ∀ k, cs[k]? = if d ≤ k ∧ k < d + xs.length then xs[k - d]? else dst[k]? := by
  induction xs with
  | nil =>
    intro dst d _
    refine ⟨dst, rfl, rfl, ?_⟩
    intro k
    have : ¬ (d ≤ k ∧ k < d + ([] : List α).length) := by
      simp only [List.length_nil]
      omega
    rw [if_neg this]
  | cons x xs ih =>
    intro dst d h
    simp only [List.length_cons] at h
    have h2 : d < dst.length := by omega
    obtain ⟨cs, hcs, hlen, hget⟩ := ih (dst.set d x) (d + 1) (by simp; omega)
    refine ⟨cs, ?_, by simpa using hlen, ?_⟩
    · simp only [std_copy_from, store_of_lt _ h2]
      exact hcs
    · intro k
      rw [hget k]
      simp only [List.length_cons]
      by_cases hk : d + 1 ≤ k ∧ k < d + 1 + xs.length
      · have hk2 : d ≤ k ∧ k < d + (xs.length + 1) := by omega
        obtain ⟨j, hj⟩ : ∃ j, k - d = j + 1 := ⟨k - d - 1, by omega⟩
        have he : k - (d + 1) = j := by omega
        rw [if_pos hk, if_pos hk2, hj, he, List.getElem?_cons_succ]
      · by_cases hkd : k = d
        · subst hkd
          have hk2 : k ≤ k ∧ k < k + (xs.length + 1) := by omega
          rw [if_neg hk, if_pos hk2, List.getElem?_set_self h2, Nat.sub_self,
            List.getElem?_cons_zero]
        · have hk2 : ¬ (d ≤ k ∧ k < d + (xs.length + 1)) := by omega
          have hne : d ≠ k := fun h => hkd h.symm
          rw [if_neg hk, if_neg hk2, List.getElem?_set_ne hne]

end loops

section equal

variable {α : Type}

/-- The element loop of `std::equal` decides the equality of the two compared ranges. -/
theorem std_equal_loop_eq [DecidableEq α] (n : Nat) :
    ∀ (c1 : List α) (f1 : Nat) (c2 : List α) (f2 : Nat),
      f1 + n ≤ c1.length → f2 + n ≤ c2.length →
      std_equal_loop n c1 f1 c2 f2 =
        .ok (decide ((c1.drop f1).take n = (c2.drop f2).take n)) := by
  induction n with
  | zero =>
    intro c1 f1 c2 f2 _ _
    simp [std_equal_loop]
  | succ n ih =>
    intro c1 f1 c2 f2 h1 h2
    have hl1 : f1 < c1.length := by omega
    have hl2 : f2 < c2.length := by omega
    have hd1 : c1.drop f1 = c1.get ⟨f1, hl1⟩ :: c1.drop (f1 + 1) :=
      List.drop_eq_getElem_cons hl1
    have hd2 : c2.drop f2 = c2.get ⟨f2, hl2⟩ :: c2.drop (f2 + 1) :=
      List.drop_eq_getElem_cons hl2
    simp only [std_equal_loop, load_of_lt hl1, load_of_lt hl2]
    rw [hd1, hd2, List.take_succ_cons, List.take_succ_cons]
    by_cases hxy : c1.get ⟨f1, hl1⟩ = c2.get ⟨f2, hl2⟩
    · rw [if_pos hxy, ih c1 (f1 + 1) c2 (f2 + 1) (by omega) (by omega), hxy]
      simp
    · have hne : ¬ (c1.get ⟨f1, hl1⟩ :: List.take n (c1.drop (f1 + 1)) =
          c2.get ⟨f2, hl2⟩ :: List.take n (c2.drop (f2 + 1))) :=
        fun h => hxy (List.cons.inj h).1
      rw [if_neg hxy, decide_eq_false hne]

end equal

section lex

variable {α : Type}

/-- The loop of `std::lexicographical_compare` computes `lex_compare_lists` of the two
compared ranges. -/
theorem std_lexicographical_compare_loop_eq (comp : α → α → Bool) (n1 : Nat) :
    ∀ (n2 : Nat) (c1 : List α) (f1 : Nat) (c2 : List α) (f2 : Nat),
      f1 + n1 ≤ c1.length → f2 + n2 ≤ c2.length →
      std_lexicographical_compare_loop comp n1 n2 c1 f1 c2 f2 =
        .ok (lex_compare_lists comp ((c1.drop f1).take n1) ((c2.drop f2).take n2)) := by
  induction n1 with
  | zero =>
    intro n2 c1 f1 c2 f2 _ h2
    have hl : ((c2.drop f2).take n2).length = n2 := by
      simp only [List.length_take, List.length_drop]
      omega
    simp only [std_lexicographical_compare_loop, List.take_zero, lex_compare_lists, hl]
  | succ n1 ih =>
    intro n2 c1 f1 c2 f2 h1 h2
    have hl1 : f1 < c1.length := by omega
    have hd1 : c1.drop f1 = c1.get ⟨f1, hl1⟩ :: c1.drop (f1 + 1) :=
      List.drop_eq_getElem_cons hl1
    cases n2 with
    | zero =>
      rw [hd1, List.take_succ_cons]
      simp only [std_lexicographical_compare_loop, List.take_zero, lex_compare_lists]
    | succ n2 =>
      have hl2 : f2 < c2.length := by omega
      have hd2 : c2.drop f2 = c2.get ⟨f2, hl2⟩ :: c2.drop (f2 + 1) :=
        List.drop_eq_getElem_cons hl2
      rw [hd1, hd2, List.take_succ_cons, List.take_succ_cons]
      simp only [std_lexicographical_compare_loop, load_of_lt hl1, load_of_lt hl2,
        lex_compare_lists]
      rw [ih n2 c1 (f1 + 1) c2 (f2 + 1) (by omega) (by omega)]
      split_ifs <;> rfl

theorem LexLess_nil_left [LT α] (ys : List α) : LexLess ([] : List α) ys ↔ ys.length ≠ 0 := by
  constructor
  · rintro (⟨_, h⟩ | ⟨k, x, y, hx, _⟩)
    · simp only [List.length_nil] at h
      omega
    · simp at hx
  · intro h
    exact Or.inl ⟨List.nil_prefix, by simp only [List.length_nil]; omega⟩

theorem LexLess_nil_right [LT α] (xs : List α) : ¬ LexLess xs ([] : List α) := by
  rintro (⟨_, h⟩ | ⟨k, x, y, _, hy, _⟩)
  · simp at h
  · simp at hy

theorem LexLess_cons_of_lt [LT α] (x y : α) (xs ys : List α) (hne : x ≠ y) (h : x < y) :
    LexLess (x :: xs) (y :: ys) :=
  Or.inr ⟨0, x, y, by simp, by simp, hne, h, fun j hj => absurd hj (Nat.not_lt_zero j)⟩

theorem LexLess_cons_same [LT α] (x : α) (xs ys : List α) :
    LexLess (x :: xs) (x :: ys) ↔ LexLess xs ys := by
  constructor
  · rintro (⟨hp, hl⟩ | ⟨k, a, b, ha, hb, hne, hlt, hall⟩)
    · refine Or.inl ⟨?_, by simpa using hl⟩
      obtain ⟨t, ht⟩ := hp
      exact ⟨t, by simpa using ht⟩
    · cases k with
      | zero =>
        simp only [List.getElem?_cons_zero, Option.some.injEq] at ha hb
        exact absurd (ha.symm.trans hb) hne
      | succ k =>
        refine Or.inr ⟨k, a, b, by simpa using ha, by simpa using hb, hne, hlt, ?_⟩
        intro j hj
        simpa using hall (j + 1) (by omega)
  · rintro (⟨hp, hl⟩ | ⟨k, a, b, ha, hb, hne, hlt, hall⟩)
    · refine Or.inl ⟨?_, by simpa using hl⟩
      obtain ⟨t, ht⟩ := hp
      exact ⟨t, by simp [ht]⟩
    · refine Or.inr ⟨k + 1, a, b, by simpa using ha, by simpa using hb, hne, hlt, ?_⟩
      intro j hj
      cases j with
      | zero => simp
      | succ j => simpa using hall j (by omega)

theorem LexLess_cons_head_le [Preorder α] (x y : α) (xs ys : List α)
    (h : LexLess (x :: xs) (y :: ys)) : x ≤ y := by
  rcases h with ⟨hp, _⟩ | ⟨k, a, b, ha, hb, _, hlt, hall⟩
  · obtain ⟨t, ht⟩ := hp
    simp only [List.cons_append, List.cons.injEq] at ht
    exact le_of_eq ht.1
  · cases k with
    | zero =>
      simp only [List.getElem?_cons_zero, Option.some.injEq] at ha hb
      rw [ha, hb]
      exact le_of_lt hlt
    | succ k =>
      have := hall 0 (by omega)
      simp only [List.getElem?_cons_zero, Option.some.injEq] at this
      exact le_of_eq this

/-- On a totally ordered element type `std::lexicographical_compare` with `std::less` decides
the lexicographic order of the specification. -/
theorem lex_compare_lists_lt_iff [LinearOrder α] (xs : List α) :
    ∀ ys : List α, lex_compare_lists (fun a b => decide (a < b)) xs ys = true ↔
      LexLess xs ys := by
  induction xs with
  | nil =>
    intro ys
    simp only [lex_compare_lists, decide_eq_true_eq, LexLess_nil_left]
  | cons x xs ih =>
    intro ys
    cases ys with
    | nil =>
      simp only [lex_compare_lists, Bool.false_eq_true, false_iff]
      exact LexLess_nil_right _
    | cons y ys =>
      simp only [lex_compare_lists, decide_eq_true_eq]
      by_cases hxy : x < y
      · simp only [hxy, if_true, true_iff]
        exact LexLess_cons_of_lt x y xs ys (ne_of_lt hxy) hxy
      · by_cases hyx : y < x
        · simp only [hxy, hyx, if_false, if_true, Bool.false_eq_true, false_iff]
          intro h
          exact absurd (LexLess_cons_head_le x y xs ys h) (not_le_of_lt hyx)
        · have he : x = y := le_antisymm (le_of_not_lt hyx) (le_of_not_lt hxy)
          subst he
          simp only [hxy, if_false]
          rw [ih ys, LexLess_cons_same x xs ys]

end lex

/-! ## Shapes of lists given by their cells -/

section shapes

variable {α : Type}

theorem list_eq_insert_of_getElem? (xs l : List α) (i : Nat) (value : α) (hi : i ≤ xs.length)
    (h : ∀ k, l[k]? = if k < i then xs[k]? else if k = i then some value else xs[k - 1]?) :
    l = xs.take i ++ [value] ++ xs.drop i := by
  apply List.ext_getElem?
  intro k
  rw [h k]
  have hlen : (xs.take i).length = i := by simp [hi]
  by_cases h1 : k < i
  · rw [if_pos h1, List.append_assoc, List.getElem?_append_left (by omega),
      List.getElem?_take_of_lt h1]
  · rw [if_neg h1, List.append_assoc, List.getElem?_append_right (by omega), hlen]
    by_cases h2 : k = i
    · subst h2
      simp
    · rw [if_neg h2]
      obtain ⟨j, hj⟩ : ∃ j, k - i = j + 1 := ⟨k - i - 1, by omega⟩
      have hk : k - 1 = i + j := by omega
      rw [hj, hk]
      simp [List.getElem?_drop]

theorem list_eq_erase_of_getElem? (xs l : List α) (i : Nat) (hi : i ≤ xs.length)
    (h : ∀ k, l[k]? = if k < i then xs[k]? else xs[k + 1]?) :
    l = xs.take i ++ xs.drop (i + 1) := by
  apply List.ext_getElem?
  intro k
  rw [h k]
  have hlen : (xs.take i).length = i := by simp [hi]
  by_cases h1 : k < i
  · rw [if_pos h1, List.getElem?_append_left (by omega), List.getElem?_take_of_lt h1]
  · rw [if_neg h1, List.getElem?_append_right (by omega), hlen, List.getElem?_drop]
    congr 1
    omega

end shapes

/-! ## Facts about the operations -/

namespace SimpleVector

variable {α : Type}

theorem cells_mk_some (r : RawArray α) : (⟨some r⟩ : ArrayPtr α).cells = r.cells := rfl

theorem cells_mk_none : (⟨none⟩ : ArrayPtr α).cells = [] := rfl

theorem setCells_mk_some (r : RawArray α) (cs : List α) :
    (⟨some r⟩ : ArrayPtr α).setCells cs = ⟨some ⟨r.addr, cs⟩⟩ := rfl

theorem cells_of_get_none {a : ArrayPtr α} (h : a.Get.isSome = false) : a.cells = [] := by
  cases a with
  | mk r =>
    cases r with
    | none => rfl
    | some r => simp [ArrayPtr.Get] at h

/-- The new-expression succeeds for a length between one and the admitted maximum. -/
theorem new_array_ok [ElemType α] (p n : Nat) (hn0 : n ≠ 0) (hmax : n ≤ ElemType.max_len α) :
    (new_array p n : Except Err (RawArray α)) =
      .ok ⟨p, ElemType.zero :: List.replicate (n - 1) ElemType.dflt⟩ := by
  have hlim : ¬ (n = 0 ∨ ElemType.max_len α < n) := by omega
  simp only [new_array, if_neg hlim]

/-- The new-expression throws for a length above the admitted maximum. -/
theorem new_array_too_long [ElemType α] (p n : Nat) (hmax : ElemType.max_len α < n) :
    (new_array p n : Except Err (RawArray α)) = .error .bad_array_new_length := by
  simp only [new_array, if_pos (Or.inr hmax : n = 0 ∨ ElemType.max_len α < n)]

/-- What `Reserve` does when it has to grow the array. -/
theorem Reserve_grow [ElemType α] (v : SimpleVector α) (n p : Nat) (hwf : v.WF)
    (hn : v.capacity_ < n) (hmax : n ≤ ElemType.max_len α) :
    ∃ cs, v.Reserve n p = .ok ⟨⟨some ⟨p, cs⟩⟩, v.size_, n⟩ ∧ cs.length = n ∧
      ∀ k, k < v.size_ → cs[k]? = v.items_.cells[k]? := by
  obtain ⟨hlen, hsz⟩ := hwf
  have hn0 : n ≠ 0 := by omega
  have hnew : (ArrayPtr.ctor_size p n : Except Err (ArrayPtr α)) =
      .ok ⟨some ⟨p, ElemType.zero :: List.replicate (n - 1) ElemType.dflt⟩⟩ := by
    simp only [ArrayPtr.ctor_size, ne_eq, hn0, not_false_eq_true, if_true,
      new_array_ok p n hn0 hmax]
  have hnl : (ElemType.zero :: List.replicate (n - 1) (ElemType.dflt : α)).length = n := by
    simp; omega
  by_cases hg : v.items_.Get.isSome = true
  · obtain ⟨cs, hcs, hcl, hget⟩ := std_copy_loop_spec v.size_ v.items_.cells 0
      (ElemType.zero :: List.replicate (n - 1) (ElemType.dflt : α)) 0 (by omega) (by omega)
    refine ⟨cs, ?_, by omega, ?_⟩
    · simp only [Reserve, gt_iff_lt, hn, if_true, hnew, hg, cells_mk_some, std_copy, begin,
        end_, Nat.not_lt_zero, if_false, Nat.zero_add, Nat.sub_zero, hcs, setCells_mk_some,
        ArrayPtr.move_assign]
    · intro k hk
      rw [hget k]
      have : 0 ≤ k ∧ k < 0 + v.size_ := by omega
      rw [if_pos this]
      simp
  · have hg2 : v.items_.Get.isSome = false := by simpa using hg
    have hc := cells_of_get_none hg2
    have hs0 : v.size_ = 0 := by
      rw [hc] at hlen
      simp at hlen
      omega
    refine ⟨ElemType.zero :: List.replicate (n - 1) ElemType.dflt, ?_, hnl, ?_⟩
    · simp only [Reserve, gt_iff_lt, hn, if_true, hnew, hg2, cells_mk_some, setCells_mk_some,
        ArrayPtr.move_assign]
      simp
    · intro k hk
      omega

/-- A call of `Reserve` that does not ask for more than the capacity changes nothing. -/
theorem Reserve_noop [ElemType α] (v : SimpleVector α) (n p : Nat) (hn : n ≤ v.capacity_) :
    v.Reserve n p = .ok v := by
  have : ¬ (n > v.capacity_) := by omega
  simp [Reserve, this]

theorem exists_raw_of_cells_pos {a : ArrayPtr α} (h : 0 < a.cells.length) :
    ∃ r, a = ⟨some r⟩ := by
  cases a with
  | mk r =>
    cases r with
    | none => simp [ArrayPtr.cells] at h
    | some r => exact ⟨r, rfl⟩

theorem size_mul_two {c : Nat} (h : c * 2 < SIZE_MOD) : size_mul c 2 = c * 2 := by
  simp [size_mul, Nat.mod_eq_of_lt h]

theorem size_inc_of_lt {n : Nat} (h : n + 1 < SIZE_MOD) : size_inc n = n + 1 := by
  simp [size_inc, Nat.mod_eq_of_lt h]

theorem size_dec_of_pos {n : Nat} (h0 : 0 < n) (h : n < SIZE_MOD) : size_dec n = n - 1 := by
  have h1 : n + (SIZE_MOD - 1) = (n - 1) + SIZE_MOD := by omega
  have h2 : n - 1 < SIZE_MOD := by omega
  simp [size_dec, h1, Nat.mod_eq_of_lt h2]

/-- The right shift performed by `Insert`. -/
theorem shift_for_insert (c1 : List α) (i s : Nat) (hi : i ≤ s) (hs : s < c1.length) :
    ∃ cs, std_move_backward c1 i s (s + 1) = .ok cs ∧ cs.length = c1.length ∧
      ∀ k, cs[k]? = if i < k ∧ k ≤ s then c1[k - 1]? else c1[k]? := by
  obtain ⟨cs, hcs, hlen, hget⟩ := std_move_backward_loop_shift_right (s - i) c1 s (by omega)
    (by omega)
  have hsi : s - (s - i) = i := by omega
  rw [hsi] at hget
  have hlt : ¬ (s < i) := by omega
  exact ⟨cs, by simp only [std_move_backward, hlt, if_false, hcs], hlen, hget⟩

/-- The part of `Insert` that follows the capacity check, from the state `v1` it works on. -/
theorem Insert_of_reserved [ElemType α] (v : SimpleVector α) (i : Nat) (value : α) (p : Nat)
    (hwf : v.WF) (hi : i ≤ v.size_) (hsz : v.size_ + 1 < SIZE_MOD) (a : Nat) (c1 : List α) (c : Nat)
    (hres : (if v.size_ = v.capacity_ then v.Reserve (max (size_mul v.capacity_ 2) 1) p
      else .ok v) = .ok ⟨⟨some ⟨a, c1⟩⟩, v.size_, c⟩)
    (hlen : c1.length = c) (hlt : v.size_ < c)
    (hsame : ∀ k, k < v.size_ → c1[k]? = v.items_.cells[k]?) :
    ∃ v', v.Insert i (.external value) p = .ok (v', i) ∧ v'.WF ∧
      v'.contents = v.contents.take i ++ [value] ++ v.contents.drop i ∧
      v'.size_ = v.size_ + 1 ∧ v'.capacity_ = c := by
  obtain ⟨cs, hcs, hcl, hget⟩ := shift_for_insert c1 i v.size_ hi (by omega)
  have hassert : i ≥ 0 ∧ i ≤ 0 + v.size_ := by omega
  have hstore : store cs i value = .ok (cs.set i value) := store_of_lt _ (by omega)
  refine ⟨⟨⟨some ⟨a, cs.set i value⟩⟩, v.size_ + 1, c⟩, ?_, ?_, ?_, rfl, rfl⟩
  · simp only [Insert, begin, end_, GetIndex, hassert, not_true_eq_false, if_false, hres,
      cells_mk_some, Nat.zero_add, Nat.sub_zero, hcs, ValueRef.read, setCells_mk_some,
      ArrayPtr.assign_at, hstore, size_inc_of_lt hsz]
    simp [hi]
  · refine ⟨?_, ?_⟩
    · simp only [cells_mk_some, List.length_set]
      omega
    · show v.size_ + 1 ≤ c
      omega
  · apply list_eq_insert_of_getElem?
    · have := hwf.1
      have := hwf.2
      simp only [contents, List.length_take]
      omega
    · intro k
      simp only [contents, cells_mk_some, List.getElem?_take]
      by_cases hk1 : k < i
      · have h1 : k < v.size_ + 1 := by omega
        have h2 : ¬ (i < k ∧ k ≤ v.size_) := by omega
        have h3 : k < v.size_ := by omega
        have h4 : i ≠ k := by omega
        rw [if_pos h1, if_pos hk1, List.getElem?_set_ne h4, hget k, if_neg h2, hsame k h3,
          if_pos h3]
      · rw [if_neg hk1]
        by_cases hk2 : k = i
        · subst hk2
          have h1 : k < v.size_ + 1 := by omega
          rw [if_pos h1, if_pos rfl, List.getElem?_set_self (by omega)]
        · rw [if_neg hk2]
          have h4 : i ≠ k := fun h => hk2 h.symm
          by_cases hk3 : k ≤ v.size_
          · have h1 : k < v.size_ + 1 := by omega
            have h2 : i < k ∧ k ≤ v.size_ := by omega
            have h3 : k - 1 < v.size_ := by omega
            rw [if_pos h1, List.getElem?_set_ne h4, hget k, if_pos h2, hsame _ h3, if_pos h3]
          · have h1 : ¬ (k < v.size_ + 1) := by omega
            have h3 : ¬ (k - 1 < v.size_) := by omega
            rw [if_neg h1, if_neg h3]

/-- Full description of `Insert` of a value held outside the array, on a well-formed vector:
the incremented size is a `size_t` and, if the vector is full, the new-expression accepts the
doubled capacity. -/
theorem Insert_ok [ElemType α] (v : SimpleVector α) (i : Nat) (value : α) (p : Nat)
    (hwf : v.WF) (hi : i ≤ v.size_) (hsz : v.size_ + 1 < SIZE_MOD)
    (hcap : v.size_ = v.capacity_ → max (v.capacity_ * 2) 1 ≤ ElemType.max_len α) :
    ∃ v', v.Insert i (.external value) p = .ok (v', i) ∧ v'.WF ∧
      v'.contents = v.contents.take i ++ [value] ++ v.contents.drop i ∧
      v'.size_ = v.size_ + 1 ∧
      v'.capacity_ = (if v.size_ = v.capacity_ then max (v.capacity_ * 2) 1
        else v.capacity_) := by
  by_cases hfull : v.size_ = v.capacity_
  · have hmax := hcap hfull
    have hlim := ElemType.max_len_lt (α := α)
    have h2 : v.capacity_ * 2 < SIZE_MOD :=
      lt_of_le_of_lt (le_trans (le_max_left _ _) hmax) hlim
    have hgrow : v.capacity_ < max (v.capacity_ * 2) 1 := by
      rcases Nat.eq_zero_or_pos v.capacity_ with h0 | h0
      · simp [h0]
      · have : v.capacity_ < v.capacity_ * 2 := by omega
        exact lt_of_lt_of_le this (le_max_left _ _)
    obtain ⟨cs, hres, hcl, hsame⟩ := Reserve_grow v (max (v.capacity_ * 2) 1) p hwf hgrow hmax
    obtain ⟨v', h1, h2, h3, h4, h5⟩ := Insert_of_reserved v i value p hwf hi hsz p cs
      (max (v.capacity_ * 2) 1) (by rw [if_pos hfull, size_mul_two h2]; exact hres)
      hcl (by omega) hsame
    exact ⟨v', h1, h2, h3, h4, by rw [if_pos hfull]; exact h5⟩
  · have hlt : v.size_ < v.capacity_ := lt_of_le_of_ne hwf.2 hfull
    obtain ⟨r, hr⟩ := exists_raw_of_cells_pos (a := v.items_) (by rw [hwf.1]; omega)
    have hv : v = ⟨⟨some ⟨r.addr, r.cells⟩⟩, v.size_, v.capacity_⟩ := by
      cases v with
      | mk items size cap =>
        simp only at hr
        subst hr
        rfl
    have hrc : r.cells = v.items_.cells := by rw [hr]; rfl
    obtain ⟨v', h1, h2, h3, h4, h5⟩ := Insert_of_reserved v i value p hwf hi hsz r.addr r.cells
      v.capacity_ (by rw [if_neg hfull]; exact congrArg Except.ok hv)
      (by rw [hrc]; exact hwf.1) hlt (by intro k _; rw [hrc])
    exact ⟨v', h1, h2, h3, h4, by rw [if_neg hfull]; exact h5⟩

/-- The left shift performed by `Erase` succeeds when the cell at index `size_` exists. -/
theorem shift_for_erase (cells : List α) (i s : Nat) (hi : i ≤ s) (hs : s < cells.length) :
    ∃ cs, std_move cells (i + 1) (s + 1) i = .ok cs ∧ cs.length = cells.length ∧
      ∀ k, cs[k]? = if i ≤ k ∧ k < s then cells[k + 1]? else cells[k]? := by
  obtain ⟨cs, hcs, hlen, hget⟩ := std_move_loop_shift_left (s - i) cells i (by omega)
  have hsi : i + (s - i) = s := by omega
  have hn : s + 1 - (i + 1) = s - i := by omega
  rw [hsi] at hget
  have hlt : ¬ (s + 1 < i + 1) := by omega
  exact ⟨cs, by simp only [std_move, hlt, if_false, hn, hcs], hlen, hget⟩

/-- The loop of `Erase` runs off the array when its last source cell is one past the extent. -/
theorem std_move_loop_overrun (n : Nat) :
    ∀ (cells : List α) (d : Nat), d + 1 + n = cells.length →
      std_move_loop (n + 1) cells (d + 1) d = .error .undefined_behaviour := by
  induction n with
  | zero =>
    intro cells d h
    simp only [std_move_loop, load_of_le (show cells.length ≤ d + 1 by omega)]
  | succ n ih =>
    intro cells d h
    have h1 : d + 1 < cells.length := by omega
    have h2 : d < cells.length := by omega
    have := ih (cells.set d (cells.get ⟨d + 1, h1⟩)) (d + 1) (by simp; omega)
    rw [std_move_loop]
    simp only [load_of_lt h1, store_of_lt _ h2]
    exact this

/-- Full description of `Erase` at a position before `end()` when the array has a cell at
index `size_`, that is when the vector is not full. -/
theorem Erase_ok (v : SimpleVector α) (i : Nat) (hwf : v.WF) (hi : i < v.size_)
    (hroom : v.size_ < v.capacity_) (hcap : v.capacity_ < SIZE_MOD) :
    ∃ v', v.Erase i = .ok (v', i) ∧ v'.WF ∧
      v'.contents = v.contents.take i ++ v.contents.drop (i + 1) ∧
      v'.size_ = v.size_ - 1 ∧ v'.capacity_ = v.capacity_ := by
  obtain ⟨hlen, hsz⟩ := hwf
  obtain ⟨r, hr⟩ := exists_raw_of_cells_pos (a := v.items_) (by rw [hlen]; omega)
  have hrc : v.items_.cells = r.cells := by rw [hr]; rfl
  obtain ⟨cs, hcs, hcl, hget⟩ := shift_for_erase r.cells i v.size_ (by omega)
    (by rw [← hrc, hlen]; exact hroom)
  have hassert : i ≥ 0 ∧ i ≤ 0 + v.size_ := by omega
  have hdec : size_dec v.size_ = v.size_ - 1 := size_dec_of_pos (by omega) (by omega)
  refine ⟨⟨⟨some ⟨r.addr, cs⟩⟩, v.size_ - 1, v.capacity_⟩, ?_, ?_, ?_, rfl, rfl⟩
  · have hle : i ≤ v.size_ := by omega
    simp only [Erase, begin, end_, GetIndex, Nat.zero_add, Nat.sub_zero, hr, cells_mk_some,
      hcs, setCells_mk_some, hdec]
    simp [hle]
  · refine ⟨?_, ?_⟩
    · simp only [cells_mk_some]
      rw [hcl, ← hrc, hlen]
    · show v.size_ - 1 ≤ v.capacity_
      omega
  · apply list_eq_erase_of_getElem?
    · simp only [contents, List.length_take]
      omega
    · intro k
      simp only [contents, cells_mk_some, List.getElem?_take, hrc]
      by_cases hk : k < v.size_ - 1
      · rw [if_pos hk, hget k]
        by_cases hk1 : k < i
        · have h2 : ¬ (i ≤ k ∧ k < v.size_) := by omega
          have h3 : k < v.size_ := by omega
          rw [if_neg h2, if_pos hk1, if_pos h3]
        · have h2 : i ≤ k ∧ k < v.size_ := by omega
          have h3 : k + 1 < v.size_ := by omega
          rw [if_pos h2, if_neg hk1, if_pos h3]
      · have hk1 : ¬ (k < i) := by omega
        have h3 : ¬ (k + 1 < v.size_) := by omega
        rw [if_neg hk, if_neg hk1, if_neg h3]

/-- On a full vector `Erase` at a position before `end()` reads the cell one past the
allocated extent. -/
theorem Erase_full (v : SimpleVector α) (i : Nat) (hwf : v.WF) (hi : i < v.size_)
    (hfull : v.size_ = v.capacity_) : v.Erase i = .error .undefined_behaviour := by
  obtain ⟨hlen, _⟩ := hwf
  have hassert : i ≥ 0 ∧ i ≤ 0 + v.size_ := by omega
  have hlt : ¬ (v.size_ + 1 < i + 1) := by omega
  obtain ⟨n, hn⟩ : ∃ n, v.size_ + 1 - (i + 1) = n + 1 := ⟨v.size_ - i - 1, by omega⟩
  have hover := std_move_loop_overrun n v.items_.cells i (by omega)
  have hle : i ≤ v.size_ := by omega
  simp only [Erase, begin, end_, GetIndex, Nat.zero_add, Nat.sub_zero, std_move, hlt, hn,
    hover]
  simp [hle]

theorem PushBackAll_append [ElemType α] (pre rest : List (ValueRef α × Nat)) :
    ∀ v : SimpleVector α, PushBackAll v (pre ++ rest) =
      match PushBackAll v pre with
      | .error e => .error e
      | .ok v1 => PushBackAll v1 rest := by
  induction pre with
  | nil => intro v; rfl
  | cons c pre ih =>
    intro v
    simp only [List.cons_append, PushBackAll]
    cases v.PushBack c.1 c.2 with
    | error e => rfl
    | ok v1 => exact ih v1

theorem external_calls_append (pre rest : List (α × Nat)) :
    external_calls (pre ++ rest) = external_calls pre ++ external_calls rest := by
  simp [external_calls]

/-- On vectors whose sizes lie within their arrays `operator==` decides the equality of the
logical contents. -/
theorem eq_eq_decide_contents [DecidableEq α] (a b : SimpleVector α)
    (ha : a.size_ ≤ a.items_.cells.length) (hb : b.size_ ≤ b.items_.cells.length) :
    eq a b = .ok (decide (a.contents = b.contents)) := by
  have hla : a.contents.length = a.size_ := by simp [contents, ha]
  have hlb : b.contents.length = b.size_ := by simp [contents, hb]
  have h0 : ¬ (a.size_ < 0 ∨ b.size_ < 0) := by omega
  simp only [eq, std_equal, begin, end_, Nat.zero_add, Nat.sub_zero, if_neg h0]
  by_cases hs : a.size_ = b.size_
  · have hs2 : ¬ (a.size_ ≠ b.size_) := by simpa using hs
    rw [if_neg hs2, std_equal_loop_eq a.size_ _ 0 _ 0 (by omega) (by omega)]
    simp only [List.drop_zero, contents, hs]
  · rw [if_pos hs]
    have hne : a.contents ≠ b.contents := by
      intro h
      apply hs
      rw [← hla, ← hlb, h]
    simp [hne]

/-- Erasing what was just inserted gives back the original contents, provided the vector is
not full after the insertion (otherwise `Erase` runs off the array, see `Erase_full`). -/
theorem Insert_Erase_roundtrip [ElemType α] [DecidableEq α] (v : SimpleVector α) (i : Nat)
    (value : α) (p : Nat) (hwf : v.WF) (hi : i ≤ v.size_) (hc : v.capacity_ < SIZE_MOD)
    (hcap : v.size_ = v.capacity_ → max (v.capacity_ * 2) 1 ≤ ElemType.max_len α)
    (hroom : v.size_ + 1 < (if v.size_ = v.capacity_ then max (v.capacity_ * 2) 1
      else v.capacity_)) :
    ∃ v1 v2, v.Insert i (.external value) p = .ok (v1, i) ∧ v1.Erase i = .ok (v2, i) ∧
      v2.contents = v.contents ∧ v2.size_ = v.size_ ∧ eq v2 v = .ok true := by
  have hlim := ElemType.max_len_lt (α := α)
  have hcm' : (if v.size_ = v.capacity_ then max (v.capacity_ * 2) 1 else v.capacity_) <
      SIZE_MOD := by
    split_ifs with hfull
    · exact lt_of_le_of_lt (hcap hfull) hlim
    · exact hc
  have hsz : v.size_ + 1 < SIZE_MOD := lt_trans hroom hcm'
  obtain ⟨v1, h1, hwf1, hc1, hs1, hcap1⟩ := Insert_ok v i value p hwf hi hsz hcap
  have hcm : v1.capacity_ < SIZE_MOD := by
    rw [hcap1]
    exact hcm'
  obtain ⟨v2, h2, hwf2, hc2, hs2, _⟩ := Erase_ok v1 i hwf1 (by omega)
    (by rw [hs1, hcap1]; exact hroom) hcm
  have hl : v.contents.length = v.size_ := by
    have := hwf.1
    have := hwf.2
    simp only [contents, List.length_take]
    omega
  have hcont : v2.contents = v.contents := by
    rw [hc2, hc1]
    have h3 : (List.take i v.contents ++ [value] ++ List.drop i v.contents).take i =
        List.take i v.contents := by
      rw [List.append_assoc, List.take_append_of_le_length (by simp; omega)]
      simp
    have h4 : (List.take i v.contents ++ [value] ++ List.drop i v.contents).drop (i + 1) =
        List.drop i v.contents := by
      have hl2 : (List.take i v.contents ++ [value]).length = i + 1 := by simp; omega
      rw [← hl2, List.drop_left]
    rw [h3, h4, List.take_append_drop]
  refine ⟨v1, v2, h1, h2, hcont, by omega, ?_⟩
  rw [eq_eq_decide_contents v2 v (by rw [hwf2.1]; exact hwf2.2) (by rw [hwf.1]; exact hwf.2),
    hcont]
  simp

/-! ### `size_ ≤ capacity_` across the operations other than `Erase` -/

theorem Clear_size_le (v : SimpleVector α) : v.Clear.size_ ≤ v.Clear.capacity_ :=
  Nat.zero_le _

theorem PopBack_size_le (v : SimpleVector α) (h : v.size_ ≤ v.capacity_)
    (hc : v.capacity_ < SIZE_MOD) : v.PopBack.size_ ≤ v.PopBack.capacity_ := by
  by_cases h0 : v.size_ = 0
  · simp [PopBack, h0]
  · have hd : size_dec v.size_ = v.size_ - 1 := size_dec_of_pos (by omega) (by omega)
    simp only [PopBack, ne_eq, h0, not_false_eq_true, if_true, hd]
    omega

theorem Reserve_size_le [ElemType α] (v v' : SimpleVector α) (n p : Nat)
    (h : v.size_ ≤ v.capacity_) (hr : v.Reserve n p = .ok v') : v'.size_ ≤ v'.capacity_ := by
  by_cases hn : n > v.capacity_
  · simp only [Reserve, hn, if_true] at hr
    split at hr
    · cases hr
    · split at hr
      · cases hr
      · cases hr
        show v.size_ ≤ n
        omega
  · simp only [Reserve, hn, if_false] at hr
    cases hr
    exact h

theorem Reserve_capacity_ge [ElemType α] (v v' : SimpleVector α) (n p : Nat)
    (hr : v.Reserve n p = .ok v') : n ≤ v'.capacity_ := by
  by_cases hn : n > v.capacity_
  · simp only [Reserve, hn, if_true] at hr
    split at hr
    · cases hr
    · split at hr
      · cases hr
      · cases hr
        exact le_refl _
  · simp only [Reserve, hn, if_false] at hr
    cases hr
    omega

theorem Resize_size_le [ElemType α] (v v' : SimpleVector α) (n p : Nat)
    (hr : v.Resize n p = .ok v') : v'.size_ ≤ v'.capacity_ := by
  simp only [Resize] at hr
  split at hr
  · cases hr
  · rename_i v1 h1
    cases hr
    exact Reserve_capacity_ge v v1 n p h1

/-- A call of `Resize` that does not exceed the capacity only overwrites `size_`: the array,
stale cells included, is left as it is. -/
theorem Resize_within_capacity [ElemType α] (v : SimpleVector α) (n p : Nat)
    (hn : n ≤ v.capacity_) : v.Resize n p = .ok { v with size_ := n } := by
  simp only [Resize, Reserve_noop v n p hn]

theorem swap_size_le (v w : SimpleVector α) (hv : v.size_ ≤ v.capacity_)
    (hw : w.size_ ≤ w.capacity_) :
    (v.swap w).1.size_ ≤ (v.swap w).1.capacity_ ∧
      (v.swap w).2.size_ ≤ (v.swap w).2.capacity_ :=
  ⟨hw, hv⟩

theorem ctor_move_size_le (A : SimpleVector α) (h : A.size_ ≤ A.capacity_) :
    (ctor_move A).1.size_ ≤ (ctor_move A).1.capacity_ ∧
      (ctor_move A).2.size_ ≤ (ctor_move A).2.capacity_ :=
  ⟨h, le_refl _⟩

theorem move_assign_size_le (B A : SimpleVector α) (hB : B.size_ ≤ B.capacity_)
    (hA : A.size_ ≤ A.capacity_) :
    (move_assign B A).1.size_ ≤ (move_assign B A).1.capacity_ ∧
      (move_assign B A).2.size_ ≤ (move_assign B A).2.capacity_ := by
  unfold move_assign
  split_ifs
  · exact ⟨hA, hA⟩
  · exact ⟨hB, hA⟩

theorem Initialize_size_le [ElemType α] (v v' : SimpleVector α) (n p : Nat)
    (hr : v.Initialize n p = .ok v') : v'.size_ ≤ v'.capacity_ := by
  simp only [Initialize] at hr
  split at hr
  · cases hr
  · cases hr
    exact le_refl _

/-! ### Comparison operators -/

/-- On vectors whose sizes lie within their arrays `operator<` is
`std::lexicographical_compare` with `std::less` on the logical contents. -/
theorem lt_eq_lex_compare [LT α] [DecidableRel (fun (a b : α) => a < b)]
    (a b : SimpleVector α) (ha : a.size_ ≤ a.items_.cells.length)
    (hb : b.size_ ≤ b.items_.cells.length) :
    lt a b = .ok (lex_compare_lists (fun x y => decide (x < y)) a.contents b.contents) := by
  have h0 : ¬ (a.size_ < 0 ∨ b.size_ < 0) := by omega
  simp only [lt, std_lexicographical_compare, begin, end_, Nat.zero_add, Nat.sub_zero,
    if_neg h0]
  rw [std_lexicographical_compare_loop_eq _ a.size_ b.size_ _ 0 _ 0 (by omega) (by omega)]
  simp only [List.drop_zero, contents]

/-- On vectors whose sizes lie within their arrays `operator>` is
`std::lexicographical_compare` with `std::greater` on the logical contents, the left operand
first. -/
theorem gt_eq_lex_compare [LT α] [DecidableRel (fun (a b : α) => a < b)]
    (a b : SimpleVector α) (ha : a.size_ ≤ a.items_.cells.length)
    (hb : b.size_ ≤ b.items_.cells.length) :
    gt a b = .ok (lex_compare_lists (fun x y => decide (y < x)) a.contents b.contents) := by
  have h0 : ¬ (a.size_ < 0 ∨ b.size_ < 0) := by omega
  simp only [gt, std_lexicographical_compare, begin, end_, Nat.zero_add, Nat.sub_zero,
    if_neg h0]
  rw [std_lexicographical_compare_loop_eq _ a.size_ b.size_ _ 0 _ 0 (by omega) (by omega)]
  simp only [List.drop_zero, contents]

/-- A strict prefix on the left makes `std::lexicographical_compare` return `true` whatever
the comparator is, provided the comparator is irreflexive: this is what `operator>` returns
for a strict prefix. -/
theorem lex_compare_lists_prefix (comp : α → α → Bool) (hirr : ∀ x, comp x x = false)
    (xs : List α) : ∀ t : List α, t ≠ [] → lex_compare_lists comp xs (xs ++ t) = true := by
  induction xs with
  | nil =>
    intro t ht
    have : t.length ≠ 0 := fun h => ht (List.length_eq_zero.mp h)
    simp [lex_compare_lists, this]
  | cons x xs ih =>
    intro t ht
    simp only [List.cons_append, lex_compare_lists, hirr x, Bool.false_eq_true, if_false]
    exact ih t ht

/-! ### Construction, assignment, `Reserve`, `PopBack` and `Erase` at the end -/

theorem setCells_cells (a : ArrayPtr α) : a.setCells a.cells = a := by
  cases a with
  | mk r =>
    cases r with
    | none => rfl
    | some r => rfl

/-- The initializer-list constructor succeeds for every list whose length the new-expression
accepts: size and capacity are the length of the list, the array holds exactly the list, and
there is no array for the empty list. -/
theorem ctor_init_list_ok [ElemType α] (init : List α) (p : Nat)
    (hlen : init.length ≤ ElemType.max_len α) :
    ∃ v, ctor_init_list init p = .ok v ∧ v.size_ = init.length ∧
      v.capacity_ = init.length ∧ v.items_.cells = init ∧
      (init = [] → v.items_.raw_ptr_ = none) := by
  by_cases h0 : init.length = 0
  · have hnil : init = [] := List.length_eq_zero.mp h0
    subst hnil
    exact ⟨⟨⟨none⟩, 0, 0⟩, rfl, rfl, rfl, rfl, fun _ => rfl⟩
  · have hnl : (ElemType.zero :: List.replicate (init.length - 1) (ElemType.dflt : α)).length =
        init.length := by
      simp; omega
    obtain ⟨cs, hcs, hcl, hget⟩ := std_copy_from_spec init
      (ElemType.zero :: List.replicate (init.length - 1) (ElemType.dflt : α)) 0 (by omega)
    have hinit : cs = init := by
      apply List.ext_getElem?
      intro k
      rw [hget k]
      by_cases hk : k < init.length
      · have : 0 ≤ k ∧ k < 0 + init.length := by omega
        rw [if_pos this, Nat.sub_zero]
      · have : ¬ (0 ≤ k ∧ k < 0 + init.length) := by omega
        rw [if_neg this, List.getElem?_eq_none (by omega), List.getElem?_eq_none (by omega)]
    refine ⟨⟨⟨some ⟨p, cs⟩⟩, init.length, init.length⟩, ?_, rfl, rfl, hinit, ?_⟩
    · simp only [ctor_init_list, Initialize, ArrayPtr.ctor_size, new_array_ok p _ h0 hlen,
        ne_eq, h0, not_false_eq_true, if_true, ArrayPtr.move_assign, cells_mk_some, begin, hcs,
        setCells_mk_some]
    · intro h
      rw [h] at h0
      exact absurd rfl h0

/-- A growing `Reserve` on a well-formed vector, for a capacity the new-expression accepts:
the vector owns a new array of `n` cells at the address `p`, the capacity is `n`, the size and
the contents stay. -/
theorem Reserve_ok [ElemType α] (v : SimpleVector α) (n p : Nat) (hwf : v.WF)
    (hn : v.capacity_ < n) (hmax : n ≤ ElemType.max_len α) :
    ∃ v', v.Reserve n p = .ok v' ∧ v'.WF ∧ v'.items_.Get = some p ∧ v'.capacity_ = n ∧
      v'.size_ = v.size_ ∧ v'.contents = v.contents := by
  obtain ⟨cs, hres, hcl, hsame⟩ := Reserve_grow v n p hwf hn hmax
  refine ⟨_, hres, ⟨hcl, ?_⟩, rfl, rfl, rfl, ?_⟩
  · show v.size_ ≤ n
    have := hwf.2
    omega
  · apply List.ext_getElem?
    intro k
    simp only [contents, cells_mk_some, List.getElem?_take]
    by_cases hk : k < v.size_
    · rw [if_pos hk, if_pos hk, hsame k hk]
    · rw [if_neg hk, if_neg hk]

/-- A growing `Reserve` for a capacity above what the new-expression accepts throws
`std::bad_array_new_length`. -/
theorem Reserve_too_long [ElemType α] (v : SimpleVector α) (n p : Nat)
    (hn : v.capacity_ < n) (hmax : ElemType.max_len α < n) :
    v.Reserve n p = .error .bad_array_new_length := by
  have hn0 : n ≠ 0 := by omega
  simp only [Reserve, gt_iff_lt, hn, if_true, ArrayPtr.ctor_size, ne_eq, hn0,
    not_false_eq_true, new_array_too_long p n hmax]

/-- With a non-zero size `PopBack` only decrements the size. -/
theorem PopBack_pos (v : SimpleVector α) (h0 : 0 < v.size_) (hs : v.size_ < SIZE_MOD) :
    v.PopBack = ⟨v.items_, v.size_ - 1, v.capacity_⟩ := by
  have hne : v.size_ ≠ 0 := by omega
  simp only [PopBack, ne_eq, hne, not_false_eq_true, if_true, size_dec_of_pos h0 hs]

/-- At the position `end()` of a non-empty vector `Erase` moves the empty range
`[end() + 1, end() + 1)`, touches no cell, and decrements the size like `PopBack`. -/
theorem Erase_end (v : SimpleVector α) (h0 : 0 < v.size_) (hs : v.size_ < SIZE_MOD) :
    v.Erase v.end_ = .ok (v.PopBack, v.end_) := by
  have hassert : v.end_ ≥ v.begin ∧ v.end_ ≤ v.end_ := ⟨by simp [end_, begin], le_refl _⟩
  have hlt : ¬ (0 + v.size_ + 1 < 0 + v.size_ + 1) := by omega
  simp only [Erase, hassert, and_self, not_true_eq_false, if_false, PopBack_pos v h0 hs]
  simp only [begin, end_, GetIndex, Nat.zero_add, Nat.sub_zero, std_move, Nat.lt_irrefl,
    if_false, Nat.sub_self, std_move_loop, setCells_cells, size_dec_of_pos h0 hs]

end SimpleVector

/-- The last step of a non-empty `std::move` loop reads the cell `first + n`. -/
theorem std_move_loop_indices_mem (n : Nat) :
    ∀ first d_first : Nat, first + n ∈ std_move_loop_indices (n + 1) first d_first := by
  induction n with
  | zero =>
    intro first d_first
    simp [std_move_loop_indices]
  | succ n ih =>
    intro first d_first
    have := ih (first + 1) (d_first + 1)
    have he : first + 1 + n = first + (n + 1) := by omega
    rw [he] at this
    rw [std_move_loop_indices]
    exact List.mem_cons_of_mem _ (List.mem_cons_of_mem _ this)

namespace SimpleVector

variable {α : Type}

/-- Erasing at a position before `end()` touches the cell at index `size_`. -/
theorem Erase_indices_mem_size (v : SimpleVector α) (i : Nat) (hi : i < v.size_) :
    v.size_ ∈ v.Erase_indices i := by
  obtain ⟨n, hn⟩ : ∃ n, v.size_ + 1 - (i + 1) = n + 1 := ⟨v.size_ - i - 1, by omega⟩
  have := std_move_loop_indices_mem n (i + 1) i
  have he : i + 1 + n = v.size_ := by omega
  rw [he] at this
  simpa only [Erase_indices, begin, end_, GetIndex, Nat.zero_add, Nat.sub_zero, hn] using this

theorem PopBack_contents (v : SimpleVector α) (h0 : 0 < v.size_) (hs : v.size_ < SIZE_MOD) :
    v.PopBack.contents = v.contents.take (v.size_ - 1) := by
  rw [PopBack_pos v h0 hs]
  simp only [contents, List.take_take]
  congr 1
  omega

theorem Erase_indices_end (v : SimpleVector α) : v.Erase_indices v.end_ = [] := by
  simp [Erase_indices, begin, end_, GetIndex, std_move_loop_indices]

/-- Equality of the logical contents spelled out by size and cells. -/
theorem contents_eq_iff (a b : SimpleVector α) (ha : a.size_ ≤ a.items_.cells.length)
    (hb : b.size_ ≤ b.items_.cells.length) :
    a.contents = b.contents ↔
      a.size_ = b.size_ ∧ ∀ i : Nat, i < a.size_ → a.items_.cells[i]? = b.items_.cells[i]? := by
  have hla : a.contents.length = a.size_ := by simp [contents, ha]
  have hlb : b.contents.length = b.size_ := by simp [contents, hb]
  constructor
  · intro h
    have hs : a.size_ = b.size_ := by rw [← hla, ← hlb, h]
    refine ⟨hs, ?_⟩
    intro i hi
    have h1 : a.contents[i]? = a.items_.cells[i]? := by
      simp only [contents, List.getElem?_take_of_lt hi]
    have h2 : b.contents[i]? = b.items_.cells[i]? := by
      simp only [contents, List.getElem?_take_of_lt (hs ▸ hi)]
    rw [← h1, ← h2, h]
  · rintro ⟨hs, hall⟩
    apply List.ext_getElem?
    intro k
    simp only [contents, List.getElem?_take, ← hs]
    by_cases hk : k < a.size_
    · rw [if_pos hk, if_pos hk, hall k hk]
    · rw [if_neg hk, if_neg hk]

/-! ## The claims -/

/-- C1 (size/capacity consistency), evaluated where the code breaks it: the vector `{9}` after
`PopBack()` has size 0 and capacity 1, the position `begin()` equals `end()` and passes the
assertion of `Erase`, and `Erase` leaves `size_ = 2 ^ 64 - 1` with `capacity_ = 1`, so
`size_ ≤ capacity_` no longer holds. -/
theorem C1_Erase_on_empty_breaks_size_le_capacity :
    (ctor_init_list [9] 200 : Except Err (SimpleVector Int)) = .ok vec9 ∧
    vec9.PopBack = ⟨⟨some ⟨200, [9]⟩⟩, 0, 1⟩ ∧
    vec9.PopBack.size_ ≤ vec9.PopBack.capacity_ ∧
    (vec9.PopBack.begin ≤ 0 ∧ 0 ≤ vec9.PopBack.end_) ∧
    vec9.PopBack.Erase 0 = .ok (⟨⟨some ⟨200, [9]⟩⟩, 18446744073709551615, 1⟩, 0) ∧
    ¬ ((18446744073709551615 : Nat) ≤ 1) := by
  refine ⟨rfl, rfl, by decide, by decide, rfl, by decide⟩

/-- C3 (Erase), evaluated where the code breaks it: `{1, 2, 3}` built by the initializer-list
constructor is full (size 3, capacity 3), and `Erase(begin())` reads the cell at index 3,
outside the allocated extent, instead of yielding `[2, 3]`. -/
theorem C3_Erase_on_full_vector_is_undefined :
    (ctor_init_list [1, 2, 3] 100 : Except Err (SimpleVector Int)) = .ok vec123 ∧
    vec123.WF ∧ 0 < vec123.size_ ∧
    vec123.Erase 0 = .error .undefined_behaviour := by
  refine ⟨rfl, by decide, by decide, rfl⟩

/-- C5 (insert/erase inverse), evaluated where the code breaks it: inserting 5 at `begin()`
of the default-constructed vector gives the full vector `{5}` (size 1, capacity 1), and erasing
at the same position reads the cell at index 1, outside the allocated extent, so no vector
equal to the original one is produced. -/
theorem C5_Erase_after_Insert_is_undefined :
    (ctor_default : SimpleVector Int).Insert 0 (.external 5) 100 =
      .ok (⟨⟨some ⟨100, [5]⟩⟩, 1, 1⟩, 0) ∧
    (⟨⟨some ⟨100, [5]⟩⟩, 1, 1⟩ : SimpleVector Int).Erase 0 = .error .undefined_behaviour := by
  refine ⟨rfl, rfl⟩

/-- C6 (Resize), evaluated where the code breaks it: `{1, 2, 3}` after `PopBack()` has size 2,
and `Resize(3)` does not reallocate and only sets `size_ = 3`, so the newly exposed element at
index 2 is the stale 3 and not the default value 0. -/
theorem C6_Resize_within_capacity_exposes_stale_element :
    (ctor_init_list [1, 2, 3] 100 : Except Err (SimpleVector Int)) = .ok vec123 ∧
    vec123.PopBack.size_ = 2 ∧
    vec123.PopBack.Resize 3 300 = .ok vec123 ∧
    vec123.At 2 = .ok 3 ∧ (ElemType.dflt : Int) = 0 := by
  refine ⟨rfl, rfl, rfl, rfl, rfl⟩

/-- C7 (checked access): `At(i)` throws `std::out_of_range` exactly when `i ≥ size`; for
`i < size` it performs the same access as `operator[](i)`, which on a well-formed vector
succeeds with the element `i` of the contents.  `At` only reads: it returns no new state. -/
theorem C7_At_checked_access (v : SimpleVector α) (i : Nat) :
    (v.At i = .error .out_of_range ↔ v.size_ ≤ i) ∧
    (i < v.size_ → v.At i = v.subscript i) ∧
    (v.WF → i < v.size_ →
      ∃ x, v.At i = .ok x ∧ v.subscript i = .ok x ∧ v.contents[i]? = some x) := by
  refine ⟨?_, ?_, ?_⟩
  · by_cases h : v.size_ ≤ i
    · simp [At, h]
    · have h2 : ¬ (i ≥ v.size_) := h
      simp only [At, h2, if_false, ArrayPtr.subscript, load, h, iff_false]
      cases v.items_.cells[i]? <;> simp
  · intro h
    have h2 : ¬ (i ≥ v.size_) := by omega
    simp [At, subscript, h, h2]
  · intro hwf h
    have h2 : ¬ (i ≥ v.size_) := by omega
    have hl : i < v.items_.cells.length := by
      rw [hwf.1]
      exact lt_of_lt_of_le h hwf.2
    refine ⟨v.items_.cells.get ⟨i, hl⟩, ?_, ?_, ?_⟩
    · simp only [At, h2, if_false, ArrayPtr.subscript, load_of_lt hl]
    · simp only [subscript, h, if_true, ArrayPtr.subscript, load_of_lt hl]
    · simp only [contents, List.getElem?_take_of_lt h, List.getElem?_eq_getElem hl]
      rfl

/-- Witness of C7 on `{1, 2, 3}`: index 1 is below the size, index 3 is not. -/
theorem C7_At_checked_access_witness :
    vec123.At 1 = vec123.subscript 1 ∧
    (∃ x, vec123.At 1 = .ok x ∧ vec123.subscript 1 = .ok x ∧ vec123.contents[1]? = some x) ∧
    vec123.At 3 = .error .out_of_range :=
  ⟨(C7_At_checked_access vec123 1).2.1 (by decide),
   (C7_At_checked_access vec123 1).2.2 (by decide) (by decide),
   (C7_At_checked_access vec123 3).1.mpr (by decide)⟩

/-- C8 (move construction): the vector constructed by moving from `A` has the size, the
capacity and the array (hence the elements in order) that `A` had, and `A` is left with size
0, capacity 0 and a null `items_`. -/
theorem C8_ctor_move_empties_source (A : SimpleVector α) :
    (ctor_move A).1.size_ = A.size_ ∧ (ctor_move A).1.capacity_ = A.capacity_ ∧
    (ctor_move A).1.items_ = A.items_ ∧ (ctor_move A).1.contents = A.contents ∧
    (ctor_move A).2.size_ = 0 ∧ (ctor_move A).2.capacity_ = 0 ∧
    (ctor_move A).2.items_.raw_ptr_ = none ∧ (ctor_move A).2.items_.cells = [] :=
  ⟨rfl, rfl, rfl, rfl, rfl, rfl, rfl, rfl⟩

/-- C9 (move assignment), evaluated where the code breaks it: after `B = std::move(A)` with
`B = {9}` and `A = {1, 2, 3}` (different arrays), `B` holds the array, size and capacity of
`A`, but `A` keeps `size_ = 3` and `capacity_ = 3` next to its null `items_`. -/
theorem C9_move_assign_keeps_source_size_and_capacity :
    ArrayPtr.ne vec9.items_ vec123.items_ = true ∧
    move_assign vec9 vec123 = (vec123, ⟨⟨none⟩, 3, 3⟩) ∧
    (move_assign vec9 vec123).2.size_ = 3 ∧ (move_assign vec9 vec123).2.capacity_ = 3 := by
  refine ⟨rfl, rfl, rfl, rfl⟩

/-- C12 (`operator<`): on a totally ordered element type, for vectors whose sizes lie within
their arrays, `a < b` returns `true` exactly when the contents of `a` are a strict prefix of
those of `b` or, at the first index where they differ, the element of `a` is the smaller. -/
theorem C12_lt_is_lexicographic [LinearOrder α] (a b : SimpleVector α)
    (ha : a.size_ ≤ a.items_.cells.length) (hb : b.size_ ≤ b.items_.cells.length) :
    ∃ r, lt a b = .ok r ∧ (r = true ↔ LexLess a.contents b.contents) :=
  ⟨_, lt_eq_lex_compare a b ha hb, lex_compare_lists_lt_iff a.contents b.contents⟩

/-- Witness of C12: `[1, 2, 3] < [1, 2, 4]` and `[1, 2] < [1, 2, 3]`. -/
theorem C12_lt_is_lexicographic_witness :
    (∃ r, lt vec123 vec124 = .ok r ∧ (r = true ↔ LexLess vec123.contents vec124.contents)) ∧
    lt vec123 vec124 = .ok true ∧ lt vec12 vec123 = .ok true ∧ lt vec124 vec123 = .ok false :=
  ⟨C12_lt_is_lexicographic vec123 vec124 (by decide) (by decide), rfl, rfl, rfl⟩

/-- C13 (`operator>`), evaluated where the code breaks it: `[1, 2, 3] > [1, 2]` returns
`false` although `[1, 2] < [1, 2, 3]` returns `true`, and `[1, 2] > [1, 2, 3]` returns `true`
although `[1, 2, 3] < [1, 2]` returns `false`: with `std::greater` the exhausted left range
still counts as the smaller one. -/
theorem C13_gt_disagrees_with_lt_on_prefix :
    gt vec123 vec12 = .ok false ∧ lt vec12 vec123 = .ok true ∧
    gt vec12 vec123 = .ok true ∧ lt vec123 vec12 = .ok false :=
  ⟨rfl, rfl, rfl, rfl⟩

/-- C14 (`operator>=`), evaluated where the code breaks it: `[1, 2, 3] >= [1, 2]` returns
`false` although `[1, 2, 3] < [1, 2]` returns `false` as well; and `[1, 2, 3] <= [1, 2]` is
`false` too, so for this pair neither `<=` nor `>=` holds. -/
theorem C14_ge_false_on_longer_vector :
    ge vec123 vec12 = .ok false ∧ lt vec123 vec12 = .ok false ∧
    le vec123 vec12 = .ok false :=
  ⟨rfl, rfl, rfl⟩

/-- C15 (equality): for vectors whose sizes lie within their arrays, `a == b` returns `true`
exactly when the sizes are equal and the cells agree at every index below the size (neither
the capacities nor the cells from the size on matter), and `a != b` returns the negation. -/
theorem C15_eq_is_elementwise [DecidableEq α] (a b : SimpleVector α)
    (ha : a.size_ ≤ a.items_.cells.length) (hb : b.size_ ≤ b.items_.cells.length) :
    ∃ r, eq a b = .ok r ∧ ne a b = .ok (!r) ∧
      (r = true ↔ a.size_ = b.size_ ∧
        ∀ i : Nat, i < a.size_ → a.items_.cells[i]? = b.items_.cells[i]?) := by
  have h := eq_eq_decide_contents a b ha hb
  refine ⟨decide (a.contents = b.contents), h, ?_, ?_⟩
  · have h2 : ne a b = (match eq a b with
        | .error e => .error e
        | .ok r => .ok (!r)) := rfl
    rw [h2, h]
  · rw [decide_eq_true_eq]
    exact contents_eq_iff a b ha hb

/-- Witness of C15: `{1, 2, 3}` with capacity 3 equals the vector holding `1, 2, 3` in an
array of capacity 5 with other values beyond the size, and differs from `{1, 2, 4}`. -/
theorem C15_eq_is_elementwise_witness :
    (∃ r, eq vec123 vec123_cap5 = .ok r ∧ ne vec123 vec123_cap5 = .ok (!r) ∧
      (r = true ↔ vec123.size_ = vec123_cap5.size_ ∧
        ∀ i : Nat, i < vec123.size_ →
          vec123.items_.cells[i]? = vec123_cap5.items_.cells[i]?)) ∧
    eq vec123 vec123_cap5 = .ok true ∧ ne vec123 vec123_cap5 = .ok false ∧
    eq vec123 vec124 = .ok false ∧ ne vec123 vec124 = .ok true :=
  ⟨C15_eq_is_elementwise vec123 vec123_cap5 (by decide) (by decide), rfl, rfl, rfl, rfl⟩

/-- C16 (Reserve): on a well-formed vector, `Reserve(n)` with `n > capacity` and `n` a length
the new-expression accepts succeeds: the vector then owns a new array of exactly `n` cells at
the address returned by the allocation, its capacity is `n`, and the size and the contents
are unchanged; with `n > capacity` above the accepted lengths it throws
`std::bad_array_new_length`; with `n ≤ capacity` it returns the state as it is. -/
theorem C16_Reserve_grows_or_keeps [ElemType α] (v : SimpleVector α) (n p : Nat)
    (hwf : v.WF) :
    (v.capacity_ < n → n ≤ ElemType.max_len α →
      ∃ v', v.Reserve n p = .ok v' ∧ v'.capacity_ = n ∧ v'.items_.cells.length = n ∧
        v'.items_.Get = some p ∧ v'.size_ = v.size_ ∧ v'.contents = v.contents) ∧
    (v.capacity_ < n → ElemType.max_len α < n →
      v.Reserve n p = .error .bad_array_new_length) ∧
    (n ≤ v.capacity_ → v.Reserve n p = .ok v) := by
  refine ⟨?_, ?_, ?_⟩
  · intro hn hmax
    obtain ⟨v', h1, h2, h3, h4, h5, h6⟩ := Reserve_ok v n p hwf hn hmax
    exact ⟨v', h1, h4, by rw [h2.1, h4], h3, h5, h6⟩
  · intro hn hmax
    exact Reserve_too_long v n p hn hmax
  · intro hn
    exact Reserve_noop v n p hn

/-- Witness of C16: `Reserve(5)`, `Reserve(2 ^ 62)` and `Reserve(2)` on `{1, 2, 3}`. -/
theorem C16_Reserve_grows_or_keeps_witness :
    vec123.WF ∧
    (∃ v', vec123.Reserve 5 600 = .ok v' ∧ v'.capacity_ = 5 ∧ v'.items_.cells.length = 5 ∧
      v'.items_.Get = some 600 ∧ v'.size_ = vec123.size_ ∧ v'.contents = vec123.contents) ∧
    vec123.Reserve (2 ^ 62) 600 = .error .bad_array_new_length ∧
    vec123.Reserve 2 600 = .ok vec123 :=
  ⟨by decide,
   (C16_Reserve_grows_or_keeps vec123 5 600 (by decide)).1 (by decide) (by decide),
   (C16_Reserve_grows_or_keeps vec123 (2 ^ 62) 600 (by decide)).2.1 (by decide) (by decide),
   (C16_Reserve_grows_or_keeps vec123 2 600 (by decide)).2.2 (by decide)⟩

/-- C17 (construction from a literal sequence): for every sequence `init` (an initializer
list is an existing array of the element type, so its length is one the new-expression
accepts) the constructor succeeds with size and capacity equal to the length of `init`, the
contents are `init` (`At(i)` returns `init[i]` for every `i` below the length), and for the
empty sequence `items_` is null. -/
theorem C17_ctor_init_list [ElemType α] (init : List α) (p : Nat)
    (hlen : init.length ≤ ElemType.max_len α) :
    ∃ v, ctor_init_list init p = .ok v ∧ v.size_ = init.length ∧
      v.capacity_ = init.length ∧ v.contents = init ∧
      (∀ (i : Nat) (x : α), init[i]? = some x → v.At i = .ok x) ∧
      (init = [] → v.items_.raw_ptr_ = none) := by
  obtain ⟨v, h1, h2, h3, h4, h5⟩ := ctor_init_list_ok init p hlen
  refine ⟨v, h1, h2, h3, ?_, ?_, h5⟩
  · rw [contents, h4, h2, List.take_length]
  · intro i x hx
    have hi : i < init.length := by
      by_contra hc
      rw [List.getElem?_eq_none (by omega)] at hx
      cases hx
    have hge : ¬ (i ≥ v.size_) := by omega
    simp only [At, hge, if_false, ArrayPtr.subscript, load, h4, hx]

/-- Witness of C17: `{10, 20, 30}` has size 3, capacity 3, `At(1)` is 20 and `At(3)` throws
`std::out_of_range`. -/
theorem C17_ctor_init_list_witness :
    (∃ v, ctor_init_list [10, 20, 30] 500 = .ok v ∧ v.size_ = 3 ∧ v.capacity_ = 3 ∧
      v.contents = [10, 20, 30] ∧
      (∀ (i : Nat) (x : Int), [10, 20, 30][i]? = some x → v.At i = .ok x) ∧
      (([10, 20, 30] : List Int) = [] → v.items_.raw_ptr_ = none)) ∧
    (ctor_init_list [10, 20, 30] 500 : Except Err (SimpleVector Int)) = .ok vec102030 ∧
    vec102030.At 1 = .ok 20 ∧ vec102030.At 3 = .error .out_of_range :=
  ⟨C17_ctor_init_list [10, 20, 30] 500 (by decide), rfl, rfl, rfl⟩

/-- C18 (PopBack): when the size is positive `PopBack` decreases it by exactly one and
leaves the capacity and the array, hence the elements at the indices `[0, size - 1)`,
unchanged; when the size is zero the state is unchanged. -/
theorem C18_PopBack_frame (v : SimpleVector α) (hs : v.size_ < SIZE_MOD) :
    (0 < v.size_ → v.PopBack.size_ = v.size_ - 1 ∧ v.PopBack.capacity_ = v.capacity_ ∧
      v.PopBack.items_ = v.items_ ∧ v.PopBack.contents = v.contents.take (v.size_ - 1)) ∧
    (v.size_ = 0 → v.PopBack = v) := by
  constructor
  · intro h0
    refine ⟨?_, ?_, ?_, PopBack_contents v h0 hs⟩ <;> rw [PopBack_pos v h0 hs]
  · intro h0
    simp [PopBack, h0]

/-- Witness of C18: `PopBack` on `{1, 2, 3}` and on the default-constructed vector. -/
theorem C18_PopBack_frame_witness :
    vec123.size_ < SIZE_MOD ∧
    (vec123.PopBack.size_ = vec123.size_ - 1 ∧ vec123.PopBack.capacity_ = vec123.capacity_ ∧
      vec123.PopBack.items_ = vec123.items_ ∧
      vec123.PopBack.contents = vec123.contents.take (vec123.size_ - 1)) ∧
    (ctor_default : SimpleVector Int).PopBack = ctor_default :=
  ⟨by decide, (C18_PopBack_frame vec123 (by decide)).1 (by decide),
   (C18_PopBack_frame (ctor_default : SimpleVector Int) (by decide)).2 rfl⟩

/-- C19 (accesses stay inside the allocated extent), evaluated where the code breaks it: on
the full vector `{1, 2, 3}` (size 3, capacity 3) `Erase(begin())` reads the cells 1, 2, 3 and
writes the cells 0, 1, 2; index 3 is not below the capacity and the array has no such
cell. -/
theorem C19_Erase_on_full_vector_touches_index_capacity :
    vec123.size_ ≤ vec123.capacity_ ∧ (vec123.begin ≤ 0 ∧ 0 < vec123.end_) ∧
    vec123.Erase_indices 0 = [1, 0, 2, 1, 3, 2] ∧
    ¬ (3 < vec123.capacity_) ∧ vec123.items_.cells[3]? = none := by
  refine ⟨by decide, by decide, rfl, by decide, rfl⟩

/-- C20 (`Erase` at `end()`): on a non-empty vector the position `end()` passes the position
check, the shifted range is empty (no cell is touched), the size is decremented, so the
result is the state after `PopBack` with the contents `xs[0..size - 1)`, and the returned
position is the old end index. -/
theorem C20_Erase_at_end_removes_last (v : SimpleVector α) (h0 : 0 < v.size_)
    (hs : v.size_ < SIZE_MOD) :
    v.Erase v.end_ = .ok (v.PopBack, v.end_) ∧ v.end_ = v.size_ ∧
    v.Erase_indices v.end_ = [] ∧ v.PopBack.size_ = v.size_ - 1 ∧
    v.PopBack.contents = v.contents.take (v.size_ - 1) := by
  refine ⟨Erase_end v h0 hs, by simp [end_, begin], Erase_indices_end v, ?_,
    PopBack_contents v h0 hs⟩
  rw [PopBack_pos v h0 hs]

/-- Witness of C20: `Erase(end())` on `{1, 2, 3}` gives the contents `[1, 2]` and returns
position 3. -/
theorem C20_Erase_at_end_removes_last_witness :
    (0 < vec123.size_ ∧ vec123.size_ < SIZE_MOD) ∧
    (vec123.Erase vec123.end_ = .ok (vec123.PopBack, vec123.end_) ∧
      vec123.end_ = vec123.size_ ∧ vec123.Erase_indices vec123.end_ = [] ∧
      vec123.PopBack.size_ = vec123.size_ - 1 ∧
      vec123.PopBack.contents = vec123.contents.take (vec123.size_ - 1)) ∧
    vec123.Erase 3 = .ok (⟨⟨some ⟨100, [1, 2, 3]⟩⟩, 2, 3⟩, 3) ∧
    vec123.PopBack.contents = [1, 2] :=
  ⟨⟨by decide, by decide⟩, C20_Erase_at_end_removes_last vec123 (by decide) (by decide), rfl,
   rfl⟩

end SimpleVector
